import Mathlib

/-!
Formal model of the Watchium room-synchronization engine.

The definitions below are a shallow embedding of the engine code:

* the database tables `rooms`, `room_members` and `sync_states`
  (migrations 001 and 004) become the structures `Room`, `Member` and
  `SyncState` collected in a `DB` record; fields that no verified
  property mentions (titles, anime metadata, video urls, avatars,
  `created_at`) are omitted, and the `comments` table is not modelled;
* timestamps and playback positions are rationals measured in seconds;
* the PL/pgSQL functions `check_room_access`, `check_rate_limit`
  (migration 006), `bulk_sync_update`, `change_playback_state`,
  `seek_to_time`, `cleanup_realtime_data` (migration 007) and the
  trigger `transfer_host_on_leave` (room-management migration) become
  functions on `DB`; a raised constraint violation is the `PgOut.raised`
  outcome and rolls the transaction back;
* the edge functions (rooms-create, rooms-join, rooms-leave,
  sync-control, the shared utilities `computeSync` alias
  `createSyncState`, `checkRateLimit`, `cleanupInactiveMembers`) become
  functions on `DB`; their error paths return the database unchanged.
-/

namespace Watchium

/-- One row of the `rooms` table (migration 001). -/
structure Room where
  roomId : String
  hostUserId : String
  hostUsername : String
  isPublic : Bool
  accessKey : Option String
  currentPlaybackTime : ℚ
  isPlaying : Bool
  playbackSpeed : ℚ
  lastActivity : ℚ
  updatedAt : ℚ
deriving Repr, DecidableEq

/-- One row of the `room_members` table. -/
structure Member where
  roomId : String
  userId : String
  username : String
  isHost : Bool
  isSynced : Bool
  currentPlaybackTime : ℚ
  lastHeartbeat : ℚ
  joinedAt : ℚ
deriving Repr, DecidableEq

/-- One row of the `sync_states` table (migration 004). -/
structure SyncState where
  roomId : String
  userId : String
  hostTime : ℚ
  memberTime : ℚ
  timeDifference : ℚ
  isSynced : Bool
  syncEventType : String
  createdAt : ℚ
deriving Repr, DecidableEq

/-- The persistent state the engine mutates. -/
structure DB where
  rooms : List Room
  members : List Member
  syncStates : List SyncState
deriving Repr, DecidableEq

/-- The empty database. -/
def dbInit : DB := { rooms := [], members := [], syncStates := [] }

/-- `SELECT * FROM rooms WHERE room_id = rid` (unique by the table
constraint, so the first match). -/
def findRoom (db : DB) (rid : String) : Option Room :=
  db.rooms.find? (fun r => decide (r.roomId = rid))

/-- `SELECT * FROM room_members WHERE room_id = rid AND user_id = uid`. -/
def findMember (db : DB) (rid uid : String) : Option Member :=
  db.members.find? (fun m => decide (m.roomId = rid) && decide (m.userId = uid))

/-- The rows of a member list that belong to one room. -/
def roster (l : List Member) (rid : String) : List Member :=
  l.filter (fun m => decide (m.roomId = rid))

/-- Number of rows of a member list that carry the host flag. -/
def hosts (l : List Member) : Nat :=
  l.countP (fun m => m.isHost)

/-- The roster of one room: `SELECT * FROM room_members WHERE room_id = rid`. -/
def roomMembers (db : DB) (rid : String) : List Member :=
  roster db.members rid

/-- Number of members of the room that carry the host flag. -/
def hostCount (db : DB) (rid : String) : Nat :=
  hosts (roomMembers db rid)

/-- The drift tolerance: 2 seconds, the constant hard-coded in
`createSyncState` (shared utils) and `bulk_sync_update` (migration 007). -/
def syncTolerance : ℚ := 2

/-- Result of one drift computation. -/
structure SyncResult where
  diff : ℚ
  synced : Bool
deriving Repr, DecidableEq

/-- The sync computation of the engine, as written in `createSyncState`
(shared utils): `time_difference = Math.abs(host_time - member_time)` and
`is_synced = time_difference <= 2`.  `bulk_sync_update` (migration 007)
inlines the same two formulas. -/
def computeSync (hostTime memberTime : ℚ) : SyncResult :=
  { diff := |hostTime - memberTime|
    synced := decide (|hostTime - memberTime| ≤ syncTolerance) }

/-- `updateSyncStatus` (shared utils): writes the member row with the new
sync flag, reported position and a fresh heartbeat timestamp. -/
def updateSyncStatus (db : DB) (rid uid : String) (synced : Bool)
    (t now : ℚ) : DB :=
  { db with members := db.members.map (fun m =>
      if decide (m.roomId = rid) && decide (m.userId = uid) then
        { m with isSynced := synced, currentPlaybackTime := t, lastHeartbeat := now }
      else m) }

/-- `createSyncState` (shared utils): inserts one `sync_states` row computed
by `computeSync` and then updates the member through `updateSyncStatus`. -/
def createSyncState (db : DB) (rid uid : String) (hostTime memberTime : ℚ)
    (eventType : String) (now : ℚ) : DB :=
  let s := computeSync hostTime memberTime
  let db1 := { db with syncStates := db.syncStates ++
    [{ roomId := rid, userId := uid, hostTime := hostTime,
       memberTime := memberTime, timeDifference := s.diff, isSynced := s.synced,
       syncEventType := eventType, createdAt := now }] }
  updateSyncStatus db1 rid uid s.synced memberTime now

/-- `check_rate_limit` (migration 006): counts the `sync_states` rows of the
user and action whose `created_at` lies inside the trailing window — the
window parameter is in minutes — and returns `count < max`.  The function
only reads; it inserts no row. -/
def check_rate_limit (records : List SyncState) (uid action : String)
    (windowMinutes : ℚ) (maxRequests : Nat) (now : ℚ) : Bool :=
  decide ((records.filter (fun s =>
    decide (s.userId = uid) && decide (s.syncEventType = action) &&
    decide (now - 60 * windowMinutes < s.createdAt))).length < maxRequests)

/-- `checkRateLimit` (shared utils), applied to the outcome of the
`check_rate_limit` rpc call: a thrown error is caught and the function
returns `true` (allow on error); otherwise the returned data, with null
coerced to `false`. -/
def checkRateLimit (rpc : Except Unit (Option Bool)) : Bool :=
  match rpc with
  | .error _ => true
  | .ok d => d.getD false

/-- `check_room_access` (migration 006): the room must exist; a public room
is always accessible; a private room needs a supplied key equal to the
stored one. -/
def check_room_access (db : DB) (rid : String) (accessKey : Option String) : Bool :=
  match findRoom db rid with
  | none => false
  | some r =>
    r.isPublic ||
      (match accessKey with
       | some k => decide (r.accessKey = some k)
       | none => false)

/-- `bulk_sync_update` (migration 007): for every member of the room, insert
one `sync_states` row comparing the given host time with the member
position, then refresh the room activity timestamps.  Member rows are not
touched here. -/
def bulk_sync_update (db : DB) (rid : String) (hostTime : ℚ)
    (eventType : String) (now : ℚ) : DB :=
  let samples := (roomMembers db rid).map (fun m =>
    let s := computeSync hostTime m.currentPlaybackTime
    ({ roomId := rid, userId := m.userId, hostTime := hostTime,
       memberTime := m.currentPlaybackTime, timeDifference := s.diff,
       isSynced := s.synced, syncEventType := eventType,
       createdAt := now } : SyncState))
  { db with
    syncStates := db.syncStates ++ samples,
    rooms := db.rooms.map (fun r =>
      if decide (r.roomId = rid) then { r with lastActivity := now, updatedAt := now }
      else r) }

/-- Outcome of a PL/pgSQL function call: a returned boolean, or an exception
(here only the `current_playback_time >= 0` check-constraint violation of
the `rooms` table), which aborts the transaction. -/
inductive PgOut where
  | ret (b : Bool)
  | raised
deriving Repr, DecidableEq

/-- `change_playback_state` (migration 007): requester must be a member with
the host flag, else `FALSE` with nothing written.  The rooms row is updated
with the playing flag, `COALESCE(p_current_time, current_playback_time)` and
a fresh `updated_at`; writing a negative position violates the
`valid_current_playback_time` check constraint of migration 001 and aborts.
Then `bulk_sync_update` runs with the updated room position, and every
member other than the requester is marked unsynced. -/
def change_playback_state (db : DB) (rid uid : String) (isPlaying : Bool)
    (currentTime : Option ℚ) (now : ℚ) : PgOut × DB :=
  match findMember db rid uid with
  | none => (.ret false, db)
  | some m =>
    if !m.isHost then (.ret false, db)
    else
      match findRoom db rid with
      | none => (.ret true, db)
      | some r =>
        let newPos := currentTime.getD r.currentPlaybackTime
        if newPos < 0 then (.raised, db)
        else
          let db1 := { db with rooms := db.rooms.map (fun r0 =>
            if decide (r0.roomId = rid) then
              { r0 with
                isPlaying := isPlaying
                currentPlaybackTime := newPos
                updatedAt := now }
            else r0) }
          let db2 := bulk_sync_update db1 rid newPos "play_pause" now
          let db3 := { db2 with members := db2.members.map (fun mm =>
            if decide (mm.roomId = rid) && !decide (mm.userId = uid) then
              { mm with isSynced := false }
            else mm) }
          (.ret true, db3)

/-- `seek_to_time` (migration 007): a negative position returns `FALSE`
before anything else, in particular before the host check.  Then the host
check as in `change_playback_state`; on success the room position and
`updated_at` are written, `bulk_sync_update` runs with the seek position,
and every member other than the requester is marked unsynced. -/
def seek_to_time (db : DB) (rid uid : String) (t now : ℚ) : PgOut × DB :=
  if t < 0 then (.ret false, db)
  else
    match findMember db rid uid with
    | none => (.ret false, db)
    | some m =>
      if !m.isHost then (.ret false, db)
      else
        let db1 := { db with rooms := db.rooms.map (fun r0 =>
          if decide (r0.roomId = rid) then
            { r0 with currentPlaybackTime := t, updatedAt := now }
          else r0) }
        let db2 := bulk_sync_update db1 rid t "seek" now
        let db3 := { db2 with members := db2.members.map (fun mm =>
          if decide (mm.roomId = rid) && !decide (mm.userId = uid) then
            { mm with isSynced := false }
          else mm) }
        (.ret true, db3)

/-- Rate-limit gate of the sync-control edge function: it calls
`checkRateLimit(user_id, sync_control, 1, 2)` and refuses the request when
that returns `false`.  In the failure-free case the rpc hands back exactly
the value of `check_rate_limit`. -/
def syncControlGate (db : DB) (uid : String) (now : ℚ) : Bool :=
  checkRateLimit (.ok (some (check_rate_limit db.syncStates uid "sync_control" 1 2 now)))

/-- The seek branch of the sync-control edge function, parameterized by the
outcome of the rate-limit rpc: `none` is the rate-limited response,
otherwise the `seek_to_time` rpc result. -/
def handleSeekRpc (rpc : Except Unit (Option Bool)) (db : DB) (rid uid : String)
    (t now : ℚ) : Option (PgOut × DB) :=
  if checkRateLimit rpc then some (seek_to_time db rid uid t now) else none

/-- The seek branch of the sync-control edge function when the rate-limit
rpc succeeds and hands back the value of `check_rate_limit`. -/
def handleSeek (db : DB) (rid uid : String) (t now : ℚ) : Option (PgOut × DB) :=
  handleSeekRpc (.ok (some (check_rate_limit db.syncStates uid "sync_control" 1 2 now)))
    db rid uid t now

/-- One comparison step of the oldest-member selection: keep the earlier
join timestamp, the incumbent on a tie. -/
def oldestStep (best x : Member) : Member :=
  if x.joinedAt < best.joinedAt then x else best

/-- The first member of the list carrying the minimal join timestamp, as a
model of `ORDER BY joined_at ASC LIMIT 1` over the physical row order:
the source orders by `joined_at` alone, so among rows tied on `joined_at`
the choice is not specified and the model keeps the first one. -/
def selectOldest : List Member → Option Member
  | [] => none
  | m :: ms => some (ms.foldl oldestStep m)

/-- The row update of the host-transfer promotion: set the host flag on the
rows carrying the given key, leave every other row alone. -/
def promoteKey (rid uid : String) (m : Member) : Member :=
  if decide (m.roomId = rid) && decide (m.userId = uid) then { m with isHost := true }
  else m

/-- The `transfer_host_on_leave` trigger (AFTER DELETE on `room_members`):
if the deleted row carried the host flag and other members of the room
remain, the remaining member with the earliest `joined_at` gets the host
flag and the rooms row gets the new host identity; if none remain the room
is marked stale by backdating `last_activity` 25 hours.  The system-comment
insertion of the trigger is not modelled (the `comments` table is outside
every verified claim). -/
def transfer_host_on_leave (db : DB) (old : Member) (now : ℚ) : DB :=
  if !old.isHost then db
  else
    let remaining := (roomMembers db old.roomId).filter (fun m => !decide (m.userId = old.userId))
    match selectOldest remaining with
    | some nh =>
      { db with
        members := db.members.map (promoteKey old.roomId nh.userId),
        rooms := db.rooms.map (fun r =>
          if decide (r.roomId = old.roomId) then
            { r with hostUserId := nh.userId, hostUsername := nh.username }
          else r) }
    | none =>
      { db with rooms := db.rooms.map (fun r =>
          if decide (r.roomId = old.roomId) then { r with lastActivity := now - 90000 }
          else r) }

/-- Deletion of one member row together with its AFTER DELETE trigger; this
path is shared by the leave handler and the eviction sweep. -/
def deleteMemberRow (db : DB) (rid uid : String) (now : ℚ) : DB :=
  match findMember db rid uid with
  | none => db
  | some old =>
    let db1 := { db with members := db.members.filter (fun m =>
      !(decide (m.roomId = rid) && decide (m.userId = uid))) }
    transfer_host_on_leave db1 old now

/-- The rooms-leave edge function: unknown members are rejected with no
effect; otherwise a `leave` sync-state row with zeroed times is inserted,
the member row is deleted (firing the host-transfer trigger), and if the
roster is then empty the room is marked stale by backdating
`last_activity` 25 hours. -/
def leaveRoom (db : DB) (rid uid : String) (now : ℚ) : DB :=
  match findMember db rid uid with
  | none => db
  | some _ =>
    let db1 := { db with syncStates := db.syncStates ++
      [{ roomId := rid, userId := uid, hostTime := 0, memberTime := 0,
         timeDifference := 0, isSynced := true, syncEventType := "leave",
         createdAt := now }] }
    let db2 := deleteMemberRow db1 rid uid now
    if (roomMembers db2 rid).isEmpty then
      { db2 with rooms := db2.rooms.map (fun r =>
          if decide (r.roomId = rid) then { r with lastActivity := now - 90000 }
          else r) }
    else db2

/-- The rooms-join edge function: access is validated by
`check_room_access`, an existing membership is rejected, the room must
exist; then the member row is inserted with the host flag cleared, the
synced flag set and the position copied from the room, and a `join`
sync-state row is inserted whose host and member times are both the room
position with difference 0 and synced flag set. -/
def joinRoom (db : DB) (rid uid uname : String) (accessKey : Option String)
    (now : ℚ) : DB :=
  if !check_room_access db rid accessKey then db
  else
    match findMember db rid uid with
    | some _ => db
    | none =>
      match findRoom db rid with
      | none => db
      | some r =>
        { db with
          members := db.members ++
            [{ roomId := rid, userId := uid, username := uname, isHost := false,
               isSynced := true, currentPlaybackTime := r.currentPlaybackTime,
               lastHeartbeat := now, joinedAt := now }],
          syncStates := db.syncStates ++
            [{ roomId := rid, userId := uid, hostTime := r.currentPlaybackTime,
               memberTime := r.currentPlaybackTime, timeDifference := 0,
               isSynced := true, syncEventType := "join", createdAt := now }] }

/-- The rooms-create edge function: a fresh room id (the guard models the
collision retry of `generateRoomId`), the rooms row with position 0, paused,
speed 1, and the creator inserted as the first member with the host flag. -/
def createRoom (db : DB) (rid hostId hostName : String) (isPublic : Bool)
    (accessKey : Option String) (now : ℚ) : DB :=
  if (findRoom db rid).isSome then db
  else
    { db with
      rooms := db.rooms ++
        [{ roomId := rid, hostUserId := hostId, hostUsername := hostName,
           isPublic := isPublic, accessKey := accessKey, currentPlaybackTime := 0,
           isPlaying := false, playbackSpeed := 1, lastActivity := now,
           updatedAt := now }],
      members := db.members ++
        [{ roomId := rid, userId := hostId, username := hostName, isHost := true,
           isSynced := true, currentPlaybackTime := 0, lastHeartbeat := now,
           joinedAt := now }] }

/-- The member rows selected for eviction: last heartbeat older than 30
seconds (`last_heartbeat < NOW() - INTERVAL '30 seconds'`). -/
def staleMembers (db : DB) (now : ℚ) : List Member :=
  db.members.filter (fun m => decide (m.lastHeartbeat < now - 30))

/-- `cleanupInactiveMembers` (shared utils): deletes every stale member one
row at a time; each deletion fires the host-transfer trigger. -/
def cleanupInactiveMembers (db : DB) (now : ℚ) : DB :=
  (staleMembers db now).foldl (fun d m => deleteMemberRow d m.roomId m.userId now) db

/-- `cleanup_realtime_data` (migration 007): evict stale members, drop sync
states older than 6 hours, and delete rooms with no members whose last
activity is older than one hour. -/
def cleanup_realtime_data (db : DB) (now : ℚ) : DB :=
  let db1 := cleanupInactiveMembers db now
  let db2 := { db1 with syncStates := db1.syncStates.filter (fun s =>
    !decide (s.createdAt < now - 21600)) }
  { db2 with rooms := db2.rooms.filter (fun r =>
    !((roomMembers db2 r.roomId).isEmpty && decide (r.lastActivity < now - 3600))) }

/-- The four engine operations claim C1 quantifies over. -/
inductive Op where
  | create (rid hostId hostName : String) (isPublic : Bool)
      (accessKey : Option String) (now : ℚ)
  | join (rid uid uname : String) (accessKey : Option String) (now : ℚ)
  | leave (rid uid : String) (now : ℚ)
  | evict (now : ℚ)

/-- Apply one operation through the corresponding handler. -/
def applyOp (db : DB) : Op → DB
  | .create rid hostId hostName isPublic accessKey now =>
      createRoom db rid hostId hostName isPublic accessKey now
  | .join rid uid uname accessKey now => joinRoom db rid uid uname accessKey now
  | .leave rid uid now => leaveRoom db rid uid now
  | .evict now => cleanup_realtime_data db now

/-- Apply a sequence of operations in order. -/
def applyOps (db : DB) (ops : List Op) : DB := ops.foldl applyOp db

/-- True unless the operation is a join that would insert a member into a
room whose roster is currently empty. -/
def joinHitsNonEmpty (db : DB) : Op → Bool
  | .join rid uid _ accessKey _ =>
      !(check_room_access db rid accessKey && (findMember db rid uid).isNone
          && (findRoom db rid).isSome)
        || !(roomMembers db rid).isEmpty
  | _ => true

/-- A trace is good when no join along it inserts into an empty roster. -/
def goodTrace : DB → List Op → Bool
  | _, [] => true
  | db, op :: rest => joinHitsNonEmpty db op && goodTrace (applyOp db op) rest

/-- Every room with a non-empty roster has exactly one member carrying the
host flag. -/
def OneHostInv (db : DB) : Prop :=
  ∀ rid, roomMembers db rid ≠ [] → hostCount db rid = 1

/-- No room has two members carrying the host flag. -/
def AtMostOneHostInv (db : DB) : Prop :=
  ∀ rid, hostCount db rid ≤ 1

/-- The (room, user) key of a member row. -/
def memberKey (m : Member) : String × String := (m.roomId, m.userId)

/-- The (room, user) pairs of the member rows are pairwise distinct — the
unique(room_id, user_id) table constraint. -/
def KeysNodup (db : DB) : Prop := (db.members.map memberKey).Nodup

/-- Every member row references an existing room — the room_members
foreign key. -/
def MembersHaveRooms (db : DB) : Prop :=
  ∀ m ∈ db.members, ∃ r ∈ db.rooms, r.roomId = m.roomId

/-- Room identifiers are pairwise distinct — the unique(room_id) table
constraint. -/
def RoomIdsNodup (db : DB) : Prop := (db.rooms.map Room.roomId).Nodup

/-- The structural well-formedness the schema guarantees. -/
def WF (db : DB) : Prop :=
  KeysNodup db ∧ MembersHaveRooms db ∧ AtMostOneHostInv db

/-- The members a host-transfer chooses from: the roster without the
departing member. -/
def survivors (db : DB) (rid uid : String) : List Member :=
  (roomMembers db rid).filter (fun m => !decide (m.userId = uid))

/-- A concrete room used by witnesses and counterexamples. -/
def roomR : Room :=
  { roomId := "r", hostUserId := "h", hostUsername := "H", isPublic := true,
    accessKey := none, currentPlaybackTime := 7, isPlaying := false,
    playbackSpeed := 1, lastActivity := 0, updatedAt := 0 }

/-- A concrete host member of `roomR`; at time 100 its heartbeat is 31
seconds old. -/
def hostH : Member :=
  { roomId := "r", userId := "h", username := "H", isHost := true,
    isSynced := true, currentPlaybackTime := 7, lastHeartbeat := 69, joinedAt := 0 }

/-- A concrete non-host member of `roomR`; at time 100 its heartbeat is 29
seconds old. -/
def memberM : Member :=
  { roomId := "r", userId := "m", username := "M", isHost := false,
    isSynced := true, currentPlaybackTime := 6, lastHeartbeat := 71, joinedAt := 1 }

/-- A concrete database: one room with a host and one further member. -/
def dbPair : DB := { rooms := [roomR], members := [hostH, memberM], syncStates := [] }

/-- A member that joined at time 5, physically stored before `tieB`. -/
def tieC : Member :=
  { roomId := "r", userId := "c", username := "C", isHost := false,
    isSynced := true, currentPlaybackTime := 0, lastHeartbeat := 0, joinedAt := 5 }

/-- A member with the same join timestamp as `tieC` but the smaller
identifier, stored after it. -/
def tieB : Member :=
  { roomId := "r", userId := "b", username := "B", isHost := false,
    isSynced := true, currentPlaybackTime := 0, lastHeartbeat := 0, joinedAt := 5 }

/-- A database where two non-host members tie on the join timestamp. -/
def dbTie : DB := { rooms := [roomR], members := [hostH, tieC, tieB], syncStates := [] }

/-- The operation sequence of the C1 counterexample: create a room, let the
host (and only member) leave, then let a fresh user join the surviving
empty-roster room. -/
def c1ops : List Op :=
  [Op.create "r" "a" "A" true none 0, Op.leave "r" "a" 1, Op.join "r" "b" "B" none 2]

/-- A good operation sequence: every join lands in a non-empty roster. -/
def c1goodOps : List Op :=
  [Op.create "r" "a" "A" true none 0, Op.join "r" "b" "B" none 1,
   Op.leave "r" "a" 2, Op.evict 100]

/-- State after the first rate-limited seek of the C5 scenario (time 0). -/
def seekDb1 : DB := ((handleSeek dbPair "r" "h" 10 0).map Prod.snd).getD dbPair

/-- State after the second seek of the C5 scenario (time 2/5). -/
def seekDb2 : DB := ((handleSeek seekDb1 "r" "h" 20 (2/5)).map Prod.snd).getD seekDb1

/-! ## Helper lemmas -/

theorem promoteKey_roomId (rid uid : String) (m : Member) :
    (promoteKey rid uid m).roomId = m.roomId := by
  unfold promoteKey; split <;> rfl

theorem promoteKey_userId (rid uid : String) (m : Member) :
    (promoteKey rid uid m).userId = m.userId := by
  unfold promoteKey; split <;> rfl

theorem promoteKey_memberKey (rid uid : String) (m : Member) :
    memberKey (promoteKey rid uid m) = memberKey m := by
  unfold memberKey promoteKey; split <;> rfl

theorem promoteKey_isHost (rid uid : String) (m : Member) :
    (promoteKey rid uid m).isHost =
      (decide (m.roomId = rid) && decide (m.userId = uid) || m.isHost) := by
  unfold promoteKey
  cases h : (decide (m.roomId = rid) && decide (m.userId = uid)) <;> simp [h]

theorem roster_append (l1 l2 : List Member) (rid : String) :
    roster (l1 ++ l2) rid = roster l1 rid ++ roster l2 rid := by
  simp [roster, List.filter_append]

theorem roster_filter (l : List Member) (p : Member → Bool) (rid : String) :
    roster (l.filter p) rid = (roster l rid).filter p := by
  simp only [roster, List.filter_filter]
  exact List.filter_congr (fun a _ => Bool.and_comm _ _)

theorem roster_map (l : List Member) (g : Member → Member)
    (hg : ∀ x, (g x).roomId = x.roomId) (rid : String) :
    roster (l.map g) rid = (roster l rid).map g := by
  induction l with
  | nil => rfl
  | cons x xs ih =>
    simp only [roster, List.map_cons, List.filter_cons] at *
    rw [hg x]
    cases h : decide (x.roomId = rid) <;> simp [h, ih]

theorem mem_roster (l : List Member) (rid : String) (m : Member) :
    m ∈ roster l rid ↔ m ∈ l ∧ m.roomId = rid := by
  simp [roster, List.mem_filter]

theorem hosts_append (l1 l2 : List Member) :
    hosts (l1 ++ l2) = hosts l1 + hosts l2 := by
  simp [hosts, List.countP_append]

theorem hosts_split (l : List Member) (p : Member → Bool) :
    hosts l = hosts (l.filter p) + hosts (l.filter (fun x => !p x)) := by
  induction l with
  | nil => rfl
  | cons x xs ih =>
    cases h : p x <;> cases h2 : x.isHost <;>
      simp [hosts, List.filter_cons, List.countP_cons, h, h2] at * <;> omega

theorem hosts_eq_zero (l : List Member) :
    hosts l = 0 ↔ ∀ m ∈ l, m.isHost = false := by
  simp [hosts, List.countP_eq_zero]

theorem hosts_pos_of_mem (l : List Member) (m : Member) (hm : m ∈ l)
    (hh : m.isHost = true) : 1 ≤ hosts l := by
  by_contra hcon
  have h0 : hosts l = 0 := by omega
  have h1 := (hosts_eq_zero l).mp h0 m hm
  rw [hh] at h1
  cases h1

theorem filter_key_of_mem (l : List Member) (a : Member)
    (hnd : (l.map memberKey).Nodup) (ha : a ∈ l) :
    l.filter (fun m => decide (m.roomId = a.roomId) && decide (m.userId = a.userId)) = [a] := by
  induction l with
  | nil => cases ha
  | cons x xs ih =>
    simp only [List.map_cons, List.nodup_cons] at hnd
    rcases List.mem_cons.mp ha with rfl | hmem
    · rw [List.filter_cons_of_pos (by simp)]
      have hnil : xs.filter (fun m =>
          decide (m.roomId = a.roomId) && decide (m.userId = a.userId)) = [] := by
        rw [List.filter_eq_nil_iff]
        intro b hb hkey
        simp only [Bool.and_eq_true, decide_eq_true_eq] at hkey
        exact hnd.1 (by
          have : memberKey b = memberKey a := by
            simp [memberKey, hkey.1, hkey.2]
          rw [← this]
          exact List.mem_map_of_mem memberKey hb)
      rw [hnil]
    · have hx : (decide (x.roomId = a.roomId) && decide (x.userId = a.userId)) = false := by
        rcases Bool.eq_false_or_eq_true
          (decide (x.roomId = a.roomId) && decide (x.userId = a.userId)) with h | h
        · exfalso
          simp only [Bool.and_eq_true, decide_eq_true_eq] at h
          have hkey : memberKey x = memberKey a := by
            simp [memberKey, h.1, h.2]
          exact hnd.1 (hkey ▸ List.mem_map_of_mem memberKey hmem)
        · exact h
      rw [List.filter_cons_of_neg (by simp [hx])]
      exact ih hnd.2 hmem

theorem foldl_oldestStep_mem (ms : List Member) :
    ∀ m, ms.foldl oldestStep m ∈ m :: ms := by
  induction ms with
  | nil => intro m; simp
  | cons y ys ih =>
    intro m
    simp only [List.foldl_cons, oldestStep]
    by_cases h : y.joinedAt < m.joinedAt
    · simp only [if_pos h]
      have h2 := ih y
      simp only [List.mem_cons] at h2 ⊢
      tauto
    · simp only [if_neg h]
      have h2 := ih m
      simp only [List.mem_cons] at h2 ⊢
      tauto

theorem foldl_oldestStep_le (ms : List Member) :
    ∀ m, ∀ x ∈ m :: ms, (ms.foldl oldestStep m).joinedAt ≤ x.joinedAt := by
  induction ms with
  | nil =>
    intro m x hx
    rcases List.mem_cons.mp hx with rfl | hx2
    · exact le_refl _
    · cases hx2
  | cons y ys ih =>
    intro m x hx
    simp only [List.foldl_cons, oldestStep]
    by_cases h : y.joinedAt < m.joinedAt
    · simp only [if_pos h]
      rcases List.mem_cons.mp hx with hxm | hx2
      · rw [hxm]
        exact le_trans (ih y y (List.mem_cons_self _ _)) (le_of_lt h)
      · exact ih y x hx2
    · simp only [if_neg h]
      rcases List.mem_cons.mp hx with hxm | hx2
      · rw [hxm]
        exact ih m m (List.mem_cons_self _ _)
      · rcases List.mem_cons.mp hx2 with hxy | hx3
        · rw [hxy]
          exact le_trans (ih m m (List.mem_cons_self _ _)) (not_lt.mp h)
        · exact ih m x (List.mem_cons_of_mem _ hx3)

theorem foldl_oldestStep_unique (ms : List Member) :
    ∀ m b, b ∈ m :: ms → (∀ x ∈ m :: ms, x = b ∨ b.joinedAt < x.joinedAt) →
      ms.foldl oldestStep m = b := by
  induction ms with
  | nil =>
    intro m b hb _
    rcases List.mem_cons.mp hb with rfl | hb2
    · rfl
    · cases hb2
  | cons y ys ih =>
    intro m b hb hmin
    simp only [List.foldl_cons, oldestStep]
    by_cases h : y.joinedAt < m.joinedAt
    · simp only [if_pos h]
      refine ih y b ?_ ?_
      · rcases List.mem_cons.mp hb with rfl | h2
        · rcases hmin y (by simp) with rfl | hlt
          · exact List.mem_cons_self _ _
          · exact absurd (lt_trans hlt h) (lt_irrefl _)
        · exact h2
      · intro x hx
        exact hmin x (List.mem_cons_of_mem _ hx)
    · simp only [if_neg h]
      refine ih m b ?_ ?_
      · rcases List.mem_cons.mp hb with rfl | h2
        · exact List.mem_cons_self _ _
        · rcases List.mem_cons.mp h2 with rfl | h3
          · rcases hmin m (by simp) with rfl | hlt
            · exact List.mem_cons_self _ _
            · exact absurd (lt_of_lt_of_le hlt (not_lt.mp h)) (lt_irrefl _)
          · exact List.mem_cons_of_mem _ h3
      · intro x hx
        rcases List.mem_cons.mp hx with rfl | h3
        · exact hmin x (by simp)
        · exact hmin x (List.mem_cons_of_mem _ (List.mem_cons_of_mem _ h3))

theorem selectOldest_spec (l : List Member) (hne : l ≠ []) :
    ∃ nh, selectOldest l = some nh ∧ nh ∈ l ∧
      (∀ x ∈ l, nh.joinedAt ≤ x.joinedAt) ∧
      (∀ b ∈ l, (∀ x ∈ l, x = b ∨ b.joinedAt < x.joinedAt) → nh = b) := by
  cases l with
  | nil => exact absurd rfl hne
  | cons m ms =>
    exact ⟨ms.foldl oldestStep m, rfl, foldl_oldestStep_mem ms m,
      foldl_oldestStep_le ms m, foldl_oldestStep_unique ms m⟩

theorem findMember_key (db : DB) (rid uid : String) (m : Member)
    (h : findMember db rid uid = some m) :
    m ∈ db.members ∧ m.roomId = rid ∧ m.userId = uid := by
  have hmem := List.mem_of_find?_eq_some h
  have hp := List.find?_some h
  simp only [Bool.and_eq_true, decide_eq_true_eq] at hp
  exact ⟨hmem, hp.1, hp.2⟩

theorem findMember_none (db : DB) (rid uid : String)
    (h : findMember db rid uid = none) :
    ∀ m ∈ db.members, ¬(m.roomId = rid ∧ m.userId = uid) := by
  intro m hm
  have h2 := List.find?_eq_none.mp h m hm
  simp only [Bool.and_eq_true, decide_eq_true_eq] at h2
  exact h2

theorem filter_map_keypred (l : List Member) (g : Member → Member) (p : Member → Bool)
    (hgp : ∀ x, p (g x) = p x) :
    (l.map g).filter p = (l.filter p).map g := by
  induction l with
  | nil => rfl
  | cons x xs ih =>
    simp only [List.map_cons, List.filter_cons, hgp x]
    cases h : p x <;> simp [h, ih]

theorem transfer_members_shape (db : DB) (old : Member) (now : ℚ) :
    ∃ g : Member → Member, (∀ x, memberKey (g x) = memberKey x) ∧
      (transfer_host_on_leave db old now).members = db.members.map g := by
  unfold transfer_host_on_leave
  cases hh : old.isHost with
  | false =>
    refine ⟨id, fun x => rfl, ?_⟩
    simp
  | true =>
    simp only [Bool.not_true, Bool.false_eq_true, if_false]
    cases hsel : selectOldest ((roomMembers db old.roomId).filter
        (fun m => !decide (m.userId = old.userId))) with
    | none => exact ⟨id, fun x => rfl, by simp⟩
    | some nh =>
      exact ⟨promoteKey old.roomId nh.userId,
        promoteKey_memberKey old.roomId nh.userId, rfl⟩

theorem deleteMemberRow_members (db : DB) (rid uid : String) (now : ℚ) :
    ∃ g : Member → Member, (∀ x, memberKey (g x) = memberKey x) ∧
      (deleteMemberRow db rid uid now).members =
        (db.members.filter (fun m =>
          !(decide (m.roomId = rid) && decide (m.userId = uid)))).map g := by
  unfold deleteMemberRow
  cases hfm : findMember db rid uid with
  | none =>
    refine ⟨id, fun x => rfl, ?_⟩
    rw [List.map_id]
    have hall : ∀ m ∈ db.members,
        (!(decide (m.roomId = rid) && decide (m.userId = uid))) = true := by
      intro m hm
      have hne := findMember_none db rid uid hfm m hm
      rcases Bool.eq_false_or_eq_true
        (decide (m.roomId = rid) && decide (m.userId = uid)) with h | h
      · exfalso
        simp only [Bool.and_eq_true, decide_eq_true_eq] at h
        exact hne h
      · simp [h]
    exact (List.filter_eq_self.mpr hall).symm
  | some old =>
    obtain ⟨g, hg, hmem⟩ := transfer_members_shape
      { db with members := db.members.filter (fun m =>
          !(decide (m.roomId = rid) && decide (m.userId = uid))) } old now
    exact ⟨g, hg, hmem⟩

theorem foldl_delete_members (L : List Member) :
    ∀ db : DB, ∀ now : ℚ,
      ∃ g : Member → Member, (∀ x, memberKey (g x) = memberKey x) ∧
        (L.foldl (fun d m => deleteMemberRow d m.roomId m.userId now) db).members =
          (db.members.filter (fun m => !(L.any (fun x =>
            decide (m.roomId = x.roomId) && decide (m.userId = x.userId))))).map g := by
  induction L with
  | nil =>
    intro db now
    refine ⟨id, fun x => rfl, ?_⟩
    simp
  | cons y ys ih =>
    intro db now
    obtain ⟨g1, hg1, hmem1⟩ := deleteMemberRow_members db y.roomId y.userId now
    obtain ⟨g2, hg2, hmem2⟩ := ih (deleteMemberRow db y.roomId y.userId now) now
    refine ⟨g2 ∘ g1, fun x => by
      rw [Function.comp_apply, hg2, hg1], ?_⟩
    simp only [List.foldl_cons]
    rw [hmem2, hmem1]
    rw [filter_map_keypred _ g1 _ (fun x => by
      have hr : (g1 x).roomId = x.roomId := congrArg Prod.fst (hg1 x)
      have hu : (g1 x).userId = x.userId := congrArg Prod.snd (hg1 x)
      simp only [hr, hu])]
    rw [List.filter_filter, ← List.map_map]
    congr 1
    congr 1
    apply List.filter_congr
    intro a _
    simp only [List.any_cons]
    cases h1 : (decide (a.roomId = y.roomId) && decide (a.userId = y.userId)) <;>
      cases h2 : ys.any (fun x =>
        decide (a.roomId = x.roomId) && decide (a.userId = x.userId)) <;>
      simp [h1, h2]

theorem cleanup_members_eq (db : DB) (now : ℚ) :
    (cleanup_realtime_data db now).members = (cleanupInactiveMembers db now).members := rfl

theorem staleMembers_sub (db : DB) (now : ℚ) : ∀ y ∈ staleMembers db now,
    y ∈ db.members ∧ y.lastHeartbeat < now - 30 := by
  intro y hy
  have := List.mem_filter.mp hy
  simpa using this

theorem memberKey_eq_iff {x y : Member} (h : memberKey x = memberKey y) :
    x.roomId = y.roomId ∧ x.userId = y.userId := by
  unfold memberKey at h
  simp only [Prod.mk.injEq] at h
  exact h

theorem survivors_eq (db : DB) (rid uid : String) :
    ((roomMembers { db with members := db.members.filter (fun m =>
        !(decide (m.roomId = rid) && decide (m.userId = uid))) } rid).filter
      (fun m => !decide (m.userId = uid))) = survivors db rid uid := by
  show ((roster (db.members.filter (fun m =>
      !(decide (m.roomId = rid) && decide (m.userId = uid)))) rid).filter
    (fun m => !decide (m.userId = uid))) = survivors db rid uid
  rw [roster_filter]
  unfold survivors roomMembers
  rw [List.filter_filter]
  apply List.filter_congr
  intro a _
  cases h1 : decide (a.userId = uid) <;> cases h2 : decide (a.roomId = rid) <;>
    simp [h1, h2]

theorem deleteMemberRow_promotes (db : DB) (rid uid : String) (now : ℚ)
    (mOld nh : Member)
    (hm : findMember db rid uid = some mOld) (hhost : mOld.isHost = true)
    (hsel : selectOldest (survivors db rid uid) = some nh) :
    (deleteMemberRow db rid uid now).members =
      (db.members.filter (fun m =>
        !(decide (m.roomId = rid) && decide (m.userId = uid)))).map
        (promoteKey rid nh.userId) ∧
    (deleteMemberRow db rid uid now).rooms =
      db.rooms.map (fun r => if decide (r.roomId = rid) then
        { r with hostUserId := nh.userId, hostUsername := nh.username } else r) := by
  obtain ⟨_, hrid, huid⟩ := findMember_key db rid uid mOld hm
  unfold deleteMemberRow transfer_host_on_leave
  rw [hm]
  simp only [hhost, Bool.not_true, Bool.false_eq_true, if_false, hrid, huid]
  rw [survivors_eq db rid uid, hsel]
  exact ⟨rfl, rfl⟩

theorem leaveRoom_promotes (db : DB) (rid uid : String) (now : ℚ)
    (mOld nh : Member)
    (hm : findMember db rid uid = some mOld) (hhost : mOld.isHost = true)
    (hsel : selectOldest (survivors db rid uid) = some nh)
    (hnhmem : nh ∈ survivors db rid uid) :
    (leaveRoom db rid uid now).members =
      (db.members.filter (fun m =>
        !(decide (m.roomId = rid) && decide (m.userId = uid)))).map
        (promoteKey rid nh.userId) ∧
    (leaveRoom db rid uid now).rooms =
      db.rooms.map (fun r => if decide (r.roomId = rid) then
        { r with hostUserId := nh.userId, hostUsername := nh.username } else r) := by
  have hnh2 := List.mem_filter.mp hnhmem
  have hnh3 := List.mem_filter.mp hnh2.1
  have hnhroom : nh.roomId = rid := by
    have := hnh3.2
    simpa using this
  have hnhuid : (decide (nh.userId = uid)) = false := by
    have := hnh2.2
    rcases Bool.eq_false_or_eq_true (decide (nh.userId = uid)) with h | h
    · rw [h] at this
      cases this
    · exact h
  obtain ⟨hdm, hdr⟩ := deleteMemberRow_promotes
    { db with syncStates := db.syncStates ++
      [{ roomId := rid, userId := uid, hostTime := 0, memberTime := 0,
         timeDifference := 0, isSynced := true, syncEventType := "leave",
         createdAt := now }] } rid uid now mOld nh hm hhost hsel
  have hne2 : (roomMembers (deleteMemberRow
      { db with syncStates := db.syncStates ++
        [{ roomId := rid, userId := uid, hostTime := 0, memberTime := 0,
           timeDifference := 0, isSynced := true, syncEventType := "leave",
           createdAt := now }] } rid uid now) rid).isEmpty = false := by
    have hmem2 : promoteKey rid nh.userId nh ∈ (deleteMemberRow
        { db with syncStates := db.syncStates ++
          [{ roomId := rid, userId := uid, hostTime := 0, memberTime := 0,
             timeDifference := 0, isSynced := true, syncEventType := "leave",
             createdAt := now }] } rid uid now).members := by
      rw [hdm]
      apply List.mem_map_of_mem
      apply List.mem_filter.mpr
      refine ⟨hnh3.1, ?_⟩
      rw [hnhuid]
      simp
    have hroster : promoteKey rid nh.userId nh ∈ roomMembers (deleteMemberRow
        { db with syncStates := db.syncStates ++
          [{ roomId := rid, userId := uid, hostTime := 0, memberTime := 0,
             timeDifference := 0, isSynced := true, syncEventType := "leave",
             createdAt := now }] } rid uid now) rid := by
      apply (mem_roster _ _ _).mpr
      exact ⟨hmem2, by rw [promoteKey_roomId, hnhroom]⟩
    cases hros : roomMembers (deleteMemberRow
        { db with syncStates := db.syncStates ++
          [{ roomId := rid, userId := uid, hostTime := 0, memberTime := 0,
             timeDifference := 0, isSynced := true, syncEventType := "leave",
             createdAt := now }] } rid uid now) rid with
    | nil => rw [hros] at hroster; cases hroster
    | cons a l => rfl
  unfold leaveRoom
  rw [hm]
  dsimp only
  rw [hne2]
  simp only [Bool.false_eq_true, if_false]
  exact ⟨hdm, hdr⟩

theorem cps_success (db : DB) (rid uid : String) (b : Bool) (ct : Option ℚ)
    (now : ℚ) (m : Member) (r : Room)
    (hm : findMember db rid uid = some m) (hhost : m.isHost = true)
    (hr : findRoom db rid = some r)
    (hpos : 0 ≤ ct.getD r.currentPlaybackTime) :
    change_playback_state db rid uid b ct now =
      (.ret true,
        { rooms := (db.rooms.map (fun r0 =>
            if decide (r0.roomId = rid) then
              { r0 with
                isPlaying := b
                currentPlaybackTime := ct.getD r.currentPlaybackTime
                updatedAt := now }
            else r0)).map (fun r0 =>
            if decide (r0.roomId = rid) then
              { r0 with lastActivity := now, updatedAt := now }
            else r0),
          members := db.members.map (fun mm =>
            if decide (mm.roomId = rid) && !decide (mm.userId = uid) then
              { mm with isSynced := false }
            else mm),
          syncStates := db.syncStates ++ (roomMembers
            { db with rooms := db.rooms.map (fun r0 =>
                if decide (r0.roomId = rid) then
                  { r0 with
                    isPlaying := b
                    currentPlaybackTime := ct.getD r.currentPlaybackTime
                    updatedAt := now }
                else r0) } rid).map (fun mm =>
            let s := computeSync (ct.getD r.currentPlaybackTime) mm.currentPlaybackTime
            ({ roomId := rid, userId := mm.userId,
               hostTime := ct.getD r.currentPlaybackTime,
               memberTime := mm.currentPlaybackTime, timeDifference := s.diff,
               isSynced := s.synced, syncEventType := "play_pause",
               createdAt := now } : SyncState)) }) := by
  unfold change_playback_state
  rw [hm]
  simp only [hhost, Bool.not_true, Bool.false_eq_true, if_false]
  rw [hr]
  dsimp only
  rw [if_neg (not_lt.mpr hpos)]
  unfold bulk_sync_update
  rfl

theorem findMember_isHost_false (db : DB) (rid uid : String)
    (hnot : ∀ mm ∈ db.members, mm.roomId = rid → mm.userId = uid → mm.isHost = false) :
    ∀ m, findMember db rid uid = some m → m.isHost = false := by
  intro m hm
  have hmem := List.mem_of_find?_eq_some hm
  have hp := List.find?_some hm
  simp only [Bool.and_eq_true, decide_eq_true_eq] at hp
  exact hnot m hmem hp.1 hp.2

theorem cps_nonhost (db : DB) (rid uid : String) (isPlaying : Bool)
    (currentTime : Option ℚ) (now : ℚ)
    (hnot : ∀ mm ∈ db.members, mm.roomId = rid → mm.userId = uid → mm.isHost = false) :
    change_playback_state db rid uid isPlaying currentTime now = (.ret false, db) := by
  unfold change_playback_state
  cases hfm : findMember db rid uid with
  | none => rfl
  | some m => simp [findMember_isHost_false db rid uid hnot m hfm]

theorem seek_nonhost (db : DB) (rid uid : String) (t now : ℚ)
    (hnot : ∀ mm ∈ db.members, mm.roomId = rid → mm.userId = uid → mm.isHost = false) :
    seek_to_time db rid uid t now = (.ret false, db) := by
  unfold seek_to_time
  by_cases ht : t < 0
  · simp [ht]
  · cases hfm : findMember db rid uid with
    | none => simp [ht, hfm]
    | some m => simp [ht, hfm, findMember_isHost_false db rid uid hnot m hfm]

theorem selectOldest_eq_none (l : List Member) :
    selectOldest l = none ↔ l = [] := by
  cases l <;> simp [selectOldest]

theorem selectOldest_mem (l : List Member) (nh : Member)
    (h : selectOldest l = some nh) : nh ∈ l := by
  cases l with
  | nil => cases h
  | cons m ms =>
    have h2 : ms.foldl oldestStep m = nh := by
      simpa [selectOldest] using h
    rw [← h2]
    exact foldl_oldestStep_mem ms m

theorem hosts_filter_le (l : List Member) (p : Member → Bool) :
    hosts (l.filter p) ≤ hosts l := by
  have := hosts_split l p
  omega

theorem hosts_singleton (x : Member) :
    hosts [x] = if x.isHost then 1 else 0 := by
  cases h : x.isHost <;> simp [hosts, List.countP_cons, h]

theorem roster_singleton (x : Member) (rid : String) :
    roster [x] rid = if decide (x.roomId = rid) then [x] else [] := by
  cases h : decide (x.roomId = rid) <;> simp [roster, List.filter_cons, h]

theorem keys_filter_nodup (l : List Member) (p : Member → Bool)
    (h : (l.map memberKey).Nodup) : ((l.filter p).map memberKey).Nodup :=
  h.sublist (List.Sublist.map memberKey (List.filter_sublist l))

theorem keys_map_promote (l : List Member) (rid uid : String) :
    (l.map (promoteKey rid uid)).map memberKey = l.map memberKey := by
  rw [List.map_map]
  have hf : (memberKey ∘ promoteKey rid uid) = memberKey :=
    funext (promoteKey_memberKey rid uid)
  rw [hf]

theorem roster_filter_qdel_other (l : List Member) (rid uid rid2 : String)
    (hne : rid2 ≠ rid) :
    (roster l rid2).filter (fun m =>
      !(decide (m.roomId = rid) && decide (m.userId = uid))) = roster l rid2 := by
  apply List.filter_eq_self.mpr
  intro m hm
  have hm2 := (mem_roster l rid2 m).mp hm
  have : (decide (m.roomId = rid)) = false := by
    simp [hm2.2, hne]
  simp [this]

theorem roster_filter_qdel_self (l : List Member) (rid uid : String) :
    (roster l rid).filter (fun m =>
      !(decide (m.roomId = rid) && decide (m.userId = uid))) =
    (roster l rid).filter (fun m => !decide (m.userId = uid)) := by
  apply List.filter_congr
  intro m hm
  have hm2 := (mem_roster l rid m).mp hm
  simp [hm2.2]

theorem map_promote_other (l : List Member) (rid uid : String)
    (h : ∀ m ∈ l, m.roomId ≠ rid) : l.map (promoteKey rid uid) = l := by
  induction l with
  | nil => rfl
  | cons x xs ih =>
    have hx : promoteKey rid uid x = x := by
      unfold promoteKey
      rw [if_neg]
      simp [h x (List.mem_cons_self _ _)]
    rw [List.map_cons, hx, ih (fun m hm => h m (List.mem_cons_of_mem _ hm))]

theorem hosts_extract (l : List Member) (rid uid : String) (old : Member)
    (hnd : (l.map memberKey).Nodup) (hold : old ∈ roster l rid)
    (hor : old.roomId = rid) (hou : old.userId = uid) :
    hosts (roster l rid) = (if old.isHost then 1 else 0) +
      hosts ((roster l rid).filter (fun m =>
        !(decide (m.roomId = rid) && decide (m.userId = uid)))) := by
  have hnd2 : ((roster l rid).map memberKey).Nodup :=
    keys_filter_nodup l _ hnd
  have hkey := filter_key_of_mem (roster l rid) old hnd2 hold
  rw [hor, hou] at hkey
  have hsplit := hosts_split (roster l rid) (fun m =>
    decide (m.roomId = rid) && decide (m.userId = uid))
  rw [hkey, hosts_singleton] at hsplit
  omega

theorem hosts_promote_one (L : List Member) (rid : String) (nh : Member)
    (hnd : (L.map memberKey).Nodup) (hnh : nh ∈ L)
    (hall : ∀ m ∈ L, m.roomId = rid) (hzero : hosts L = 0) :
    hosts (L.map (promoteKey rid nh.userId)) = 1 := by
  have hcount : hosts (L.map (promoteKey rid nh.userId)) =
      L.countP (fun x => (promoteKey rid nh.userId x).isHost) := by
    simp [hosts, List.countP_map]
    rfl
  rw [hcount]
  have hstep : L.countP (fun x => (promoteKey rid nh.userId x).isHost) =
      L.countP (fun x => decide (x.roomId = rid) && decide (x.userId = nh.userId)) := by
    apply List.countP_congr
    intro x hx
    rw [promoteKey_isHost]
    have : x.isHost = false := (hosts_eq_zero L).mp hzero x hx
    rw [this, Bool.or_false]
  rw [hstep]
  have hnhrid : nh.roomId = rid := hall nh hnh
  have hfil := filter_key_of_mem L nh hnd hnh
  rw [List.countP_eq_length_filter]
  rw [show L.filter (fun x =>
      decide (x.roomId = rid) && decide (x.userId = nh.userId)) = [nh] by
    rw [← hnhrid]
    exact hfil]
  rfl

theorem deleteMemberRow_eq_none (db : DB) (rid uid : String) (now : ℚ)
    (hfm : findMember db rid uid = none) :
    deleteMemberRow db rid uid now = db := by
  unfold deleteMemberRow
  rw [hfm]

theorem deleteMemberRow_eq_nonhost (db : DB) (rid uid : String) (now : ℚ)
    (old : Member) (hfm : findMember db rid uid = some old)
    (hh : old.isHost = false) :
    deleteMemberRow db rid uid now = { db with members := db.members.filter (fun m =>
      !(decide (m.roomId = rid) && decide (m.userId = uid))) } := by
  unfold deleteMemberRow transfer_host_on_leave
  rw [hfm]
  simp only [hh, Bool.not_false, if_true]

theorem deleteMemberRow_eq_emptyrem (db : DB) (rid uid : String) (now : ℚ)
    (old : Member) (hfm : findMember db rid uid = some old)
    (hh : old.isHost = true)
    (hsel : selectOldest (survivors db rid uid) = none) :
    deleteMemberRow db rid uid now = { db with
      members := db.members.filter (fun m =>
        !(decide (m.roomId = rid) && decide (m.userId = uid))),
      rooms := db.rooms.map (fun r => if decide (r.roomId = rid) then
        { r with lastActivity := now - 90000 } else r) } := by
  obtain ⟨_, hrid, huid⟩ := findMember_key db rid uid old hfm
  unfold deleteMemberRow transfer_host_on_leave
  rw [hfm]
  simp only [hh, Bool.not_true, Bool.false_eq_true, if_false, hrid, huid]
  rw [survivors_eq db rid uid, hsel]

theorem deleteMemberRow_rooms_shape (db : DB) (rid uid : String) (now : ℚ) :
    ∃ f : Room → Room, (∀ r, (f r).roomId = r.roomId) ∧
      (deleteMemberRow db rid uid now).rooms = db.rooms.map f := by
  cases hfm : findMember db rid uid with
  | none =>
    rw [deleteMemberRow_eq_none db rid uid now hfm]
    exact ⟨id, fun r => rfl, (List.map_id _).symm⟩
  | some old =>
    cases hh : old.isHost with
    | false =>
      rw [deleteMemberRow_eq_nonhost db rid uid now old hfm hh]
      exact ⟨id, fun r => rfl, (List.map_id _).symm⟩
    | true =>
      cases hsel : selectOldest (survivors db rid uid) with
      | none =>
        rw [deleteMemberRow_eq_emptyrem db rid uid now old hfm hh hsel]
        refine ⟨fun r => if decide (r.roomId = rid) then
          { r with lastActivity := now - 90000 } else r, fun r => ?_, rfl⟩
        dsimp only
        split <;> rfl
      | some nh =>
        obtain ⟨_, hdr⟩ := deleteMemberRow_promotes db rid uid now old nh hfm hh hsel
        refine ⟨fun r => if decide (r.roomId = rid) then
          { r with hostUserId := nh.userId, hostUsername := nh.username } else r,
          fun r => ?_, hdr⟩
        dsimp only
        split <;> rfl

theorem deleteMemberRow_roster_other (db : DB) (rid uid : String) (now : ℚ)
    (rid2 : String) (hne : rid2 ≠ rid) :
    roomMembers (deleteMemberRow db rid uid now) rid2 = roomMembers db rid2 := by
  cases hfm : findMember db rid uid with
  | none => rw [deleteMemberRow_eq_none db rid uid now hfm]
  | some old =>
    cases hh : old.isHost with
    | false =>
      rw [deleteMemberRow_eq_nonhost db rid uid now old hfm hh]
      show roster (db.members.filter (fun m =>
        !(decide (m.roomId = rid) && decide (m.userId = uid)))) rid2 =
        roster db.members rid2
      rw [roster_filter]
      exact roster_filter_qdel_other db.members rid uid rid2 hne
    | true =>
      cases hsel : selectOldest (survivors db rid uid) with
      | none =>
        rw [deleteMemberRow_eq_emptyrem db rid uid now old hfm hh hsel]
        show roster (db.members.filter (fun m =>
          !(decide (m.roomId = rid) && decide (m.userId = uid)))) rid2 =
          roster db.members rid2
        rw [roster_filter]
        exact roster_filter_qdel_other db.members rid uid rid2 hne
      | some nh =>
        obtain ⟨hdm, _⟩ := deleteMemberRow_promotes db rid uid now old nh hfm hh hsel
        show roster (deleteMemberRow db rid uid now).members rid2 = roster db.members rid2
        rw [hdm]
        rw [roster_map _ _ (promoteKey_roomId rid nh.userId)]
        rw [roster_filter]
        rw [roster_filter_qdel_other db.members rid uid rid2 hne]
        apply map_promote_other
        intro m hm
        rw [((mem_roster db.members rid2 m).mp hm).2]
        exact hne

theorem deleteMemberRow_host_rid (db : DB) (rid uid : String) (now : ℚ)
    (hnd : KeysNodup db) :
    (AtMostOneHostInv db → hostCount (deleteMemberRow db rid uid now) rid ≤ 1) ∧
    (OneHostInv db → roomMembers (deleteMemberRow db rid uid now) rid ≠ [] →
      hostCount (deleteMemberRow db rid uid now) rid = 1) := by
  cases hfm : findMember db rid uid with
  | none =>
    rw [deleteMemberRow_eq_none db rid uid now hfm]
    exact ⟨fun hat => hat rid, fun h1 hne => h1 rid hne⟩
  | some old =>
    obtain ⟨holdmem, hor, hou⟩ := findMember_key db rid uid old hfm
    have holdroster : old ∈ roomMembers db rid := (mem_roster _ _ _).mpr ⟨holdmem, hor⟩
    have hextract := hosts_extract db.members rid uid old hnd holdroster hor hou
    have hrne : roomMembers db rid ≠ [] := by
      intro h
      rw [h] at holdroster
      cases holdroster
    cases hh : old.isHost with
    | false =>
      rw [deleteMemberRow_eq_nonhost db rid uid now old hfm hh]
      rw [hh] at hextract
      simp only [Bool.false_eq_true, if_false, Nat.zero_add] at hextract
      have hcount : hostCount { db with members := db.members.filter (fun m =>
          !(decide (m.roomId = rid) && decide (m.userId = uid))) } rid =
          hosts ((roster db.members rid).filter (fun m =>
            !(decide (m.roomId = rid) && decide (m.userId = uid)))) := by
        show hosts (roster (db.members.filter (fun m =>
          !(decide (m.roomId = rid) && decide (m.userId = uid)))) rid) = _
        rw [roster_filter]
      rw [hcount, ← hextract]
      exact ⟨fun hat => hat rid, fun h1 _ => h1 rid hrne⟩
    | true =>
      rw [hh] at hextract
      simp only [if_true] at hextract
      cases hsel : selectOldest (survivors db rid uid) with
      | none =>
        have hsurv : survivors db rid uid = [] := (selectOldest_eq_none _).mp hsel
        rw [deleteMemberRow_eq_emptyrem db rid uid now old hfm hh hsel]
        have hfilnil : (roster db.members rid).filter (fun m =>
            !(decide (m.roomId = rid) && decide (m.userId = uid))) = [] := by
          rw [roster_filter_qdel_self]
          exact hsurv
        have hcount : roomMembers { db with
            members := db.members.filter (fun m =>
              !(decide (m.roomId = rid) && decide (m.userId = uid))),
            rooms := db.rooms.map (fun r => if decide (r.roomId = rid) then
              { r with lastActivity := now - 90000 } else r) } rid = [] := by
          show roster (db.members.filter (fun m =>
            !(decide (m.roomId = rid) && decide (m.userId = uid)))) rid = []
          rw [roster_filter]
          exact hfilnil
        constructor
        · intro _
          show hosts (roomMembers _ rid) ≤ 1
          rw [hcount]
          exact Nat.zero_le 1
        · intro _ hne2
          exact absurd hcount hne2
      | some nh =>
        obtain ⟨hdm, _⟩ := deleteMemberRow_promotes db rid uid now old nh hfm hh hsel
        have hnhmem : nh ∈ survivors db rid uid := selectOldest_mem _ _ hsel
        have hstep1 : roomMembers (deleteMemberRow db rid uid now) rid =
            ((roster db.members rid).filter (fun m =>
              !decide (m.userId = uid))).map (promoteKey rid nh.userId) := by
          show roster (deleteMemberRow db rid uid now).members rid = _
          rw [hdm]
          rw [roster_map _ _ (promoteKey_roomId rid nh.userId)]
          rw [roster_filter]
          rw [roster_filter_qdel_self]
        have key : hosts (roomMembers db rid) = 1 →
            hostCount (deleteMemberRow db rid uid now) rid = 1 := by
          intro h1'
          have hz : hosts ((roster db.members rid).filter (fun m =>
              !decide (m.userId = uid))) = 0 := by
            rw [← roster_filter_qdel_self db.members rid uid]
            have : hosts (roomMembers db rid) = hosts (roster db.members rid) := rfl
            rw [this] at h1'
            omega
          show hosts (roomMembers (deleteMemberRow db rid uid now) rid) = 1
          rw [hstep1]
          apply hosts_promote_one
          · exact keys_filter_nodup _ _ (keys_filter_nodup _ _ hnd)
          · exact hnhmem
          · intro m hm
            exact ((mem_roster db.members rid m).mp (List.mem_of_mem_filter hm)).2
          · exact hz
        constructor
        · intro hat
          have h1' : hosts (roomMembers db rid) = 1 :=
            le_antisymm (hat rid) (hosts_pos_of_mem _ old holdroster hh)
          exact le_of_eq (key h1')
        · intro h1 _
          exact key (h1 rid hrne)

theorem deleteMemberRow_WF (db : DB) (rid uid : String) (now : ℚ)
    (h : WF db) :
    WF (deleteMemberRow db rid uid now) ∧
    (OneHostInv db → OneHostInv (deleteMemberRow db rid uid now)) := by
  obtain ⟨hnd, hmr, hat⟩ := h
  obtain ⟨g, hg, hmem⟩ := deleteMemberRow_members db rid uid now
  obtain ⟨f, hf, hroomeq⟩ := deleteMemberRow_rooms_shape db rid uid now
  refine ⟨⟨?_, ?_, ?_⟩, ?_⟩
  · unfold KeysNodup
    rw [hmem, List.map_map]
    rw [show (memberKey ∘ g) = memberKey from funext hg]
    exact keys_filter_nodup _ _ hnd
  · intro m' hm'
    rw [hmem] at hm'
    obtain ⟨m0, hm0, hgm⟩ := List.mem_map.mp hm'
    obtain ⟨r, hr, hrid3⟩ := hmr m0 (List.mem_of_mem_filter hm0)
    refine ⟨f r, ?_, ?_⟩
    · rw [hroomeq]
      exact List.mem_map_of_mem f hr
    · rw [hf r, hrid3, ← hgm]
      exact ((memberKey_eq_iff (hg m0)).1).symm
  · intro rid2
    by_cases h2 : rid2 = rid
    · rw [h2]
      exact (deleteMemberRow_host_rid db rid uid now hnd).1 hat
    · show hosts (roomMembers _ rid2) ≤ 1
      rw [deleteMemberRow_roster_other db rid uid now rid2 h2]
      exact hat rid2
  · intro h1 rid2 hne2
    by_cases h2 : rid2 = rid
    · rw [h2]
      rw [h2] at hne2
      exact (deleteMemberRow_host_rid db rid uid now hnd).2 h1 hne2
    · rw [deleteMemberRow_roster_other db rid uid now rid2 h2] at hne2
      show hosts (roomMembers _ rid2) = 1
      rw [deleteMemberRow_roster_other db rid uid now rid2 h2]
      exact h1 rid2 hne2

theorem no_members_of_no_room (db : DB) (rid : String)
    (hmr : MembersHaveRooms db) (hf : findRoom db rid = none) :
    ∀ m ∈ db.members, m.roomId ≠ rid := by
  intro m hm hc
  obtain ⟨r, hr, hrid⟩ := hmr m hm
  have h2 := List.find?_eq_none.mp hf r hr
  simp only [decide_eq_true_eq] at h2
  exact h2 (by rw [hrid, hc])

theorem createRoom_inv (db : DB) (rid hostId hostName : String) (isPublic : Bool)
    (accessKey : Option String) (now : ℚ) (h : WF db) :
    WF (createRoom db rid hostId hostName isPublic accessKey now) ∧
    (OneHostInv db →
      OneHostInv (createRoom db rid hostId hostName isPublic accessKey now)) := by
  obtain ⟨hnd, hmr, hat⟩ := h
  unfold createRoom
  cases hf : findRoom db rid with
  | some r =>
    simp only [Option.isSome_some, if_true]
    exact ⟨⟨hnd, hmr, hat⟩, fun h1 => h1⟩
  | none =>
    simp only [Option.isSome_none, Bool.false_eq_true, if_false]
    have hnor := no_members_of_no_room db rid hmr hf
    have hroster : ∀ rid2, roster (db.members ++
        [{ roomId := rid, userId := hostId, username := hostName, isHost := true,
           isSynced := true, currentPlaybackTime := 0, lastHeartbeat := now,
           joinedAt := now }]) rid2 =
        roster db.members rid2 ++ (if decide (rid = rid2) then
          [{ roomId := rid, userId := hostId, username := hostName, isHost := true,
             isSynced := true, currentPlaybackTime := 0, lastHeartbeat := now,
             joinedAt := now }] else []) := by
      intro rid2
      rw [roster_append, roster_singleton]
    have hempty : roster db.members rid = [] := by
      unfold roster
      rw [List.filter_eq_nil_iff]
      intro m hm
      simp [hnor m hm]
    have h0 : hosts ([] : List Member) = 0 := rfl
    refine ⟨⟨?_, ?_, ?_⟩, ?_⟩
    · unfold KeysNodup
      rw [List.map_append]
      apply List.Nodup.append hnd (List.nodup_singleton _)
      intro k hk1 hk2
      obtain ⟨m, hm, hkm⟩ := List.mem_map.mp hk1
      simp only [List.map_cons, List.map_nil, List.mem_singleton] at hk2
      rw [hk2] at hkm
      exact hnor m hm (congrArg Prod.fst hkm)
    · intro m hm
      rcases List.mem_append.mp hm with h2 | h2
      · obtain ⟨r, hr, hrid⟩ := hmr m h2
        exact ⟨r, List.mem_append_left _ hr, hrid⟩
      · rw [List.mem_singleton] at h2
        refine ⟨_, List.mem_append_right _ (List.mem_singleton_self _), ?_⟩
        rw [h2]
    · intro rid2
      show hosts (roster (db.members ++ _) rid2) ≤ 1
      rw [hroster rid2, hosts_append]
      by_cases h2 : rid = rid2
      · rw [← h2, hempty, if_pos (by simp), hosts_singleton, h0]
        simp
      · rw [if_neg (by simp [h2]), h0]
        have := hat rid2
        unfold hostCount roomMembers at this
        omega
    · intro h1 rid2 hne
      show hosts (roster (db.members ++ _) rid2) = 1
      rw [hroster rid2, hosts_append]
      by_cases h2 : rid = rid2
      · rw [← h2, hempty, if_pos (by simp), hosts_singleton, h0]
        simp
      · rw [if_neg (by simp [h2]), h0]
        have hne3 : roster db.members rid2 ≠ [] := by
          intro hnil
          apply hne
          show roster (db.members ++ _) rid2 = []
          rw [hroster rid2, hnil, if_neg (by simp [h2])]
          rfl
        have := h1 rid2 hne3
        unfold hostCount roomMembers at this
        omega

theorem joinHits_spec (db : DB) (rid uid uname : String)
    (accessKey : Option String) (now : ℚ)
    (hg : joinHitsNonEmpty db (Op.join rid uid uname accessKey now) = true)
    (h1 : check_room_access db rid accessKey = true)
    (h2 : findMember db rid uid = none)
    (h3 : (findRoom db rid).isSome = true) :
    roomMembers db rid ≠ [] := by
  have hg2 : (!(check_room_access db rid accessKey &&
      (findMember db rid uid).isNone && (findRoom db rid).isSome) ||
      !(roomMembers db rid).isEmpty) = true := hg
  rw [h1, h2, h3] at hg2
  simp only [Option.isNone_none, Bool.and_true, Bool.true_and, Bool.not_true,
    Bool.false_or] at hg2
  intro hnil
  rw [hnil] at hg2
  cases hg2

theorem joinRoom_inv (db : DB) (rid uid uname : String)
    (accessKey : Option String) (now : ℚ) (h : WF db) :
    WF (joinRoom db rid uid uname accessKey now) ∧
    (OneHostInv db →
      joinHitsNonEmpty db (Op.join rid uid uname accessKey now) = true →
      OneHostInv (joinRoom db rid uid uname accessKey now)) := by
  obtain ⟨hnd, hmr, hat⟩ := h
  unfold joinRoom
  cases hacc : check_room_access db rid accessKey with
  | false =>
    simp only [Bool.not_false, if_true]
    exact ⟨⟨hnd, hmr, hat⟩, fun h1 _ => h1⟩
  | true =>
    simp only [Bool.not_true, Bool.false_eq_true, if_false]
    cases hfm : findMember db rid uid with
    | some m => exact ⟨⟨hnd, hmr, hat⟩, fun h1 _ => h1⟩
    | none =>
      cases hfr : findRoom db rid with
      | none => exact ⟨⟨hnd, hmr, hat⟩, fun h1 _ => h1⟩
      | some r =>
        dsimp only
        have hrmem : r ∈ db.rooms := List.mem_of_find?_eq_some hfr
        have hrid : r.roomId = rid := by
          have := List.find?_some hfr
          simpa using this
        have hroster : ∀ rid2, roster (db.members ++
            [{ roomId := rid, userId := uid, username := uname, isHost := false,
               isSynced := true, currentPlaybackTime := r.currentPlaybackTime,
               lastHeartbeat := now, joinedAt := now }]) rid2 =
            roster db.members rid2 ++ (if decide (rid = rid2) then
              [{ roomId := rid, userId := uid, username := uname, isHost := false,
                 isSynced := true, currentPlaybackTime := r.currentPlaybackTime,
                 lastHeartbeat := now, joinedAt := now }] else []) := by
          intro rid2
          rw [roster_append, roster_singleton]
        have h0 : hosts ([] : List Member) = 0 := rfl
        refine ⟨⟨?_, ?_, ?_⟩, ?_⟩
        · unfold KeysNodup
          rw [List.map_append]
          apply List.Nodup.append hnd (List.nodup_singleton _)
          intro k hk1 hk2
          obtain ⟨m, hm, hkm⟩ := List.mem_map.mp hk1
          simp only [List.map_cons, List.map_nil, List.mem_singleton] at hk2
          rw [hk2] at hkm
          have hkey := memberKey_eq_iff hkm
          exact findMember_none db rid uid hfm m hm ⟨hkey.1, hkey.2⟩
        · intro m hm
          rcases List.mem_append.mp hm with h2 | h2
          · obtain ⟨r2, hr2, hrid2⟩ := hmr m h2
            exact ⟨r2, hr2, hrid2⟩
          · rw [List.mem_singleton] at h2
            refine ⟨r, hrmem, ?_⟩
            rw [h2, hrid]
        · intro rid2
          show hosts (roster (db.members ++ _) rid2) ≤ 1
          rw [hroster rid2, hosts_append]
          have := hat rid2
          unfold hostCount roomMembers at this
          by_cases h2 : rid = rid2
          · rw [if_pos (by simp [h2]), hosts_singleton]
            simp only [Bool.false_eq_true, if_false]
            omega
          · rw [if_neg (by simp [h2]), h0]
            omega
        · intro h1 hg rid2 hne
          show hosts (roster (db.members ++ _) rid2) = 1
          rw [hroster rid2, hosts_append]
          by_cases h2 : rid = rid2
          · have hgne := joinHits_spec db rid uid uname accessKey now hg hacc hfm
              (by rw [hfr]; rfl)
            rw [← h2] at hne ⊢
            have := h1 rid hgne
            unfold hostCount roomMembers at this
            rw [if_pos (by simp), hosts_singleton]
            simp only [Bool.false_eq_true, if_false]
            omega
          · rw [if_neg (by simp [h2]), h0]
            have hne3 : roster db.members rid2 ≠ [] := by
              intro hnil
              apply hne
              show roster (db.members ++ _) rid2 = []
              rw [hroster rid2, hnil, if_neg (by simp [h2])]
              rfl
            have := h1 rid2 hne3
            unfold hostCount roomMembers at this
            omega

theorem rooms_map_inv (db : DB) (f : Room → Room)
    (hf : ∀ r, (f r).roomId = r.roomId) (h : WF db) :
    WF { db with rooms := db.rooms.map f } := by
  obtain ⟨hnd, hmr, hat⟩ := h
  refine ⟨hnd, ?_, hat⟩
  intro m hm
  obtain ⟨r, hr, hrid⟩ := hmr m hm
  exact ⟨f r, List.mem_map_of_mem f hr, by rw [hf r, hrid]⟩

theorem rooms_filter_inv (db : DB) (p : Room → Bool)
    (hp : ∀ r ∈ db.rooms, p r = false → roster db.members r.roomId = [])
    (h : WF db) : WF { db with rooms := db.rooms.filter p } := by
  obtain ⟨hnd, hmr, hat⟩ := h
  refine ⟨hnd, ?_, hat⟩
  intro m hm
  obtain ⟨r, hr, hrid⟩ := hmr m hm
  refine ⟨r, List.mem_filter.mpr ⟨hr, ?_⟩, hrid⟩
  cases hpr : p r with
  | true => rfl
  | false =>
    exfalso
    have hrost := hp r hr hpr
    have hmr2 : m ∈ roster db.members r.roomId :=
      (mem_roster _ _ _).mpr ⟨hm, hrid.symm⟩
    rw [hrost] at hmr2
    cases hmr2

theorem leaveRoom_inv (db : DB) (rid uid : String) (now : ℚ) (h : WF db) :
    WF (leaveRoom db rid uid now) ∧
    (OneHostInv db → OneHostInv (leaveRoom db rid uid now)) := by
  unfold leaveRoom
  cases hfm : findMember db rid uid with
  | none => exact ⟨h, fun h1 => h1⟩
  | some old =>
    dsimp only
    have hdel := deleteMemberRow_WF
      { db with syncStates := db.syncStates ++
        [{ roomId := rid, userId := uid, hostTime := 0, memberTime := 0,
           timeDifference := 0, isSynced := true, syncEventType := "leave",
           createdAt := now }] } rid uid now h
    split
    · exact ⟨rooms_map_inv _ _ (fun r => by split <;> rfl) hdel.1,
        fun h1 => hdel.2 h1⟩
    · exact ⟨hdel.1, fun h1 => hdel.2 h1⟩

theorem foldDelete_inv (now : ℚ) (L : List Member) : ∀ db : DB, WF db →
    WF (L.foldl (fun d m => deleteMemberRow d m.roomId m.userId now) db) ∧
    (OneHostInv db →
      OneHostInv (L.foldl (fun d m => deleteMemberRow d m.roomId m.userId now) db)) := by
  induction L with
  | nil => exact fun db h => ⟨h, fun h1 => h1⟩
  | cons x xs ih =>
    intro db h
    have hd := deleteMemberRow_WF db x.roomId x.userId now h
    exact ⟨(ih _ hd.1).1, fun h1 => (ih _ hd.1).2 (hd.2 h1)⟩

theorem cleanup_inv (db : DB) (now : ℚ) (h : WF db) :
    WF (cleanup_realtime_data db now) ∧
    (OneHostInv db → OneHostInv (cleanup_realtime_data db now)) := by
  have hfold := foldDelete_inv now (staleMembers db now) db h
  unfold cleanup_realtime_data
  dsimp only
  constructor
  · apply rooms_filter_inv
    · intro r hr hpr
      simp only [Bool.not_eq_false', Bool.and_eq_true, decide_eq_true_eq,
        List.isEmpty_iff] at hpr
      exact hpr.1
    · exact hfold.1
  · exact fun h1 => hfold.2 h1

theorem applyOp_inv (db : DB) (op : Op) (h : WF db) :
    WF (applyOp db op) ∧
    (OneHostInv db → joinHitsNonEmpty db op = true →
      OneHostInv (applyOp db op)) := by
  cases op with
  | create rid hostId hostName isPublic accessKey now =>
    have h2 := createRoom_inv db rid hostId hostName isPublic accessKey now h
    exact ⟨h2.1, fun h1 _ => h2.2 h1⟩
  | join rid uid uname accessKey now =>
    have h2 := joinRoom_inv db rid uid uname accessKey now h
    exact ⟨h2.1, fun h1 hg => h2.2 h1 hg⟩
  | leave rid uid now =>
    have h2 := leaveRoom_inv db rid uid now h
    exact ⟨h2.1, fun h1 _ => h2.2 h1⟩
  | evict now =>
    have h2 := cleanup_inv db now h
    exact ⟨h2.1, fun h1 _ => h2.2 h1⟩

theorem applyOps_inv (ops : List Op) : ∀ db : DB, WF db →
    WF (applyOps db ops) ∧
    (OneHostInv db → goodTrace db ops = true → OneHostInv (applyOps db ops)) := by
  induction ops with
  | nil => exact fun db h => ⟨h, fun h1 _ => h1⟩
  | cons op rest ih =>
    intro db h
    have hop := applyOp_inv db op h
    refine ⟨(ih _ hop.1).1, fun h1 hg => ?_⟩
    have hg2 : (joinHitsNonEmpty db op && goodTrace (applyOp db op) rest) = true := hg
    rw [Bool.and_eq_true] at hg2
    exact (ih _ hop.1).2 (hop.2 h1 hg2.1) hg2.2

theorem wf_dbInit : WF dbInit :=
  ⟨List.nodup_nil, fun m hm => absurd hm (List.not_mem_nil m),
   fun _ => Nat.zero_le 1⟩

theorem onehost_dbInit : OneHostInv dbInit :=
  fun _ hne => absurd rfl hne

/-! ## Claim theorems -/

/-- Claim C2: a playback-control request (play, pause or seek) whose
requester is not the host of the room is rejected with a false result and
leaves the database — room rows, member rows and sync samples — exactly
unchanged. -/
theorem C2_non_host_never_mutates (db : DB) (rid uid : String) (isPlaying : Bool)
    (currentTime : Option ℚ) (t now now2 : ℚ)
    (hnot : ∀ mm ∈ db.members, mm.roomId = rid → mm.userId = uid → mm.isHost = false) :
    change_playback_state db rid uid isPlaying currentTime now = (.ret false, db) ∧
    seek_to_time db rid uid t now2 = (.ret false, db) :=
  ⟨cps_nonhost db rid uid isPlaying currentTime now hnot,
   seek_nonhost db rid uid t now2 hnot⟩

/-- Witness for C2: member m of the concrete two-member database is not the
host, and its play and seek requests return false leaving the state as it
was. -/
theorem C2_non_host_never_mutates_witness :
    change_playback_state dbPair "r" "m" true (some 3) 5 = (.ret false, dbPair) ∧
    seek_to_time dbPair "r" "m" 3 5 = (.ret false, dbPair) :=
  C2_non_host_never_mutates dbPair "r" "m" true (some 3) 3 5 5 (by decide)

/-- Claim C3: computeSync reports the absolute difference of the host and
member positions and classifies the pair as synced exactly when that
difference is at most 2 seconds; a difference of exactly 2 is synced and a
strictly larger one is not. -/
theorem C3_computeSync_spec (h m : ℚ) :
    (computeSync h m).diff = |h - m| ∧
    ((computeSync h m).synced = true ↔ |h - m| ≤ 2) ∧
    (|h - m| = 2 → (computeSync h m).synced = true) ∧
    (2 < |h - m| → (computeSync h m).synced = false) := by
  refine ⟨rfl, ?_, fun h2 => ?_, fun h2 => ?_⟩
  · simp [computeSync, syncTolerance]
  · simp [computeSync, syncTolerance, h2]
  · simp only [computeSync, syncTolerance, decide_eq_false_iff_not, not_le]
    exact h2

/-- Witness for C3 at the boundary: difference exactly 2 is synced,
difference 201/100 is not. -/
theorem C3_computeSync_spec_witness :
    (computeSync 2 0).synced = true ∧ (computeSync (201/100) 0).synced = false :=
  ⟨(C3_computeSync_spec 2 0).2.2.1 (by rw [sub_zero]; rw [abs_of_nonneg (by norm_num)]),
   (C3_computeSync_spec (201/100) 0).2.2.2 (by rw [sub_zero]; rw [abs_of_nonneg (by norm_num)]; norm_num)⟩

/-- Claim C5 evaluated at its failing input: three seek requests by one
user within one second against the configured limit of 2 are all allowed.
The limiter counts sync_states rows of kind sync_control; the seeks insert
only seek samples (four of them here), so the counted set stays empty and
the third request passes the gate instead of being denied. -/
theorem C5_third_seek_allowed :
    handleSeek dbPair "r" "h" 10 0 = some (PgOut.ret true, seekDb1) ∧
    handleSeek seekDb1 "r" "h" 20 (2/5) = some (PgOut.ret true, seekDb2) ∧
    syncControlGate seekDb2 "h" (4/5) = true ∧
    (handleSeek seekDb2 "r" "h" 30 (4/5)).isSome = true ∧
    (seekDb2.syncStates.filter (fun s => decide (s.syncEventType = "sync_control"))).length = 0 ∧
    seekDb2.syncStates.length = 4 :=
  ⟨rfl, rfl, rfl, rfl, rfl, rfl⟩

/-- Claim C6: when the rate-limit backing call raises, the checkRateLimit
wrapper returns true and the request proceeds to the playback action
instead of being blocked. -/
theorem C6_rate_limit_fails_open (db : DB) (rid uid : String) (t now : ℚ) :
    checkRateLimit (Except.error ()) = true ∧
    handleSeekRpc (Except.error ()) db rid uid t now =
      some (seek_to_time db rid uid t now) :=
  ⟨rfl, rfl⟩

/-- Claim C7 is false on the code: a play command from the host carrying a
negative position is not rejected by any input validation —
change_playback_state has no position check, so the write reaches the rooms
table and aborts on its check constraint, in contrast with the
false-returning rejection that the same negative position receives through
seek_to_time. -/
theorem C7_counterexample :
    (change_playback_state dbPair "r" "h" true (some (-1)) 5).1 = PgOut.raised ∧
    (change_playback_state dbPair "r" "h" true (some (-1)) 5).1 ≠ PgOut.ret false ∧
    seek_to_time dbPair "r" "h" (-1) 5 = (PgOut.ret false, dbPair) := by decide

/-- Claim C7 amended: only seek validates the position — a negative seek is
rejected with a false result before the host check, for any requester alike;
play and pause perform no position validation, so a negative position from
the host aborts on the storage constraint while from a non-host it is
rejected by the host check alone. -/
theorem C7_amended_only_seek_validates (db : DB) (rid uid : String)
    (t now : ℚ) (isPlaying : Bool) (hneg : t < 0) :
    seek_to_time db rid uid t now = (.ret false, db) ∧
    (∀ m r, findMember db rid uid = some m → m.isHost = true →
      findRoom db rid = some r →
      change_playback_state db rid uid isPlaying (some t) now = (.raised, db)) ∧
    ((∀ mm ∈ db.members, mm.roomId = rid → mm.userId = uid → mm.isHost = false) →
      change_playback_state db rid uid isPlaying (some t) now = (.ret false, db)) := by
  refine ⟨?_, ?_, fun hnot => cps_nonhost db rid uid isPlaying (some t) now hnot⟩
  · unfold seek_to_time
    simp [hneg]
  · intro m r hm hhost hr
    unfold change_playback_state
    rw [hm]
    simp only [hhost, Bool.not_true, Bool.false_eq_true, if_false]
    rw [hr]
    simp [hneg]

/-- Witness for C7 amended at position -1 on the concrete database: the
seek is rejected for host and non-host, the host play aborts. -/
theorem C7_amended_only_seek_validates_witness :
    seek_to_time dbPair "r" "h" (-1) 5 = (.ret false, dbPair) ∧
    (∀ m r, findMember dbPair "r" "h" = some m → m.isHost = true →
      findRoom dbPair "r" = some r →
      change_playback_state dbPair "r" "h" true (some (-1)) 5 = (.raised, dbPair)) ∧
    ((∀ mm ∈ dbPair.members, mm.roomId = "r" → mm.userId = "h" → mm.isHost = false) →
      change_playback_state dbPair "r" "h" true (some (-1)) 5 = (.ret false, dbPair)) :=
  C7_amended_only_seek_validates dbPair "r" "h" (-1) 5 true (by norm_num)

/-- Claim C9 is false on the code: a successful host pause with the
position omitted also rewrites the rooms last-activity timestamp (the bulk
sync pass refreshes it), which the exhaustive modification list of the
claim omits. -/
theorem C9_counterexample :
    (change_playback_state dbPair "r" "h" true none 5).1 = PgOut.ret true ∧
    (change_playback_state dbPair "r" "h" true none 5).2.rooms.map Room.lastActivity ≠
      dbPair.rooms.map Room.lastActivity := by decide

/-- Claim C9 amended: a play or pause from the host omitting the position
leaves the room position unchanged, and a successful host playback update
modifies only the playing flag, the playback position, the updated-at and
last-activity timestamps of the target room plus the synced flags of its
other members (and appends sync samples): the playback speed, visibility,
access secret and host identity of the room, every other room, and every
other member field are unchanged. -/
theorem C9_amended_frame (db : DB) (rid uid : String) (b : Bool)
    (ct : Option ℚ) (now : ℚ) (m : Member) (r : Room)
    (hm : findMember db rid uid = some m) (hhost : m.isHost = true)
    (hr : findRoom db rid = some r)
    (hpos : 0 ≤ ct.getD r.currentPlaybackTime)
    (hrnd : RoomIdsNodup db) :
    (change_playback_state db rid uid b ct now).1 = .ret true ∧
    (∀ r0 ∈ db.rooms, r0.roomId ≠ rid →
      r0 ∈ (change_playback_state db rid uid b ct now).2.rooms) ∧
    (∀ r1 ∈ (change_playback_state db rid uid b ct now).2.rooms, r1.roomId = rid →
      r1.playbackSpeed = r.playbackSpeed ∧ r1.isPublic = r.isPublic ∧
      r1.accessKey = r.accessKey ∧ r1.hostUserId = r.hostUserId ∧
      r1.hostUsername = r.hostUsername ∧ r1.isPlaying = b ∧
      r1.updatedAt = now ∧ r1.lastActivity = now ∧
      (ct = none → r1.currentPlaybackTime = r.currentPlaybackTime)) ∧
    (∀ mm ∈ db.members,
      ∃ mm1 ∈ (change_playback_state db rid uid b ct now).2.members,
        mm1.roomId = mm.roomId ∧ mm1.userId = mm.userId ∧
        mm1.username = mm.username ∧ mm1.isHost = mm.isHost ∧
        mm1.currentPlaybackTime = mm.currentPlaybackTime ∧
        mm1.lastHeartbeat = mm.lastHeartbeat ∧ mm1.joinedAt = mm.joinedAt ∧
        mm1.isSynced = (if mm.roomId = rid ∧ mm.userId ≠ uid then false
          else mm.isSynced)) := by
  have hrmem : r ∈ db.rooms := List.mem_of_find?_eq_some hr
  have hrid : r.roomId = rid := by
    have := List.find?_some hr
    simpa using this
  rw [cps_success db rid uid b ct now m r hm hhost hr hpos]
  refine ⟨rfl, ?_, ?_, ?_⟩
  · intro r0 hr0 hne0
    have h0 : (decide (r0.roomId = rid)) = false := by
      simp [hne0]
    apply List.mem_map.mpr
    refine ⟨r0, ?_, by rw [if_neg (by simp [h0])]⟩
    apply List.mem_map.mpr
    exact ⟨r0, hr0, by rw [if_neg (by simp [h0])]⟩
  · intro r1 hr1 hr1id
    obtain ⟨ra, hra, hupa⟩ := List.mem_map.mp hr1
    obtain ⟨r0, hr0, hup0⟩ := List.mem_map.mp hra
    by_cases h0 : (decide (r0.roomId = rid)) = true
    · rw [if_pos h0] at hup0
      rw [← hup0] at hupa
      rw [if_pos h0] at hupa
      have hr0r : r0 = r := by
        apply List.inj_on_of_nodup_map hrnd hr0 hrmem
        show r0.roomId = r.roomId
        rw [hrid]
        simpa using h0
      rw [← hupa, hr0r]
      refine ⟨rfl, rfl, rfl, rfl, rfl, rfl, rfl, rfl, ?_⟩
      intro hnone
      rw [hnone]
      rfl
    · exfalso
      rw [if_neg h0] at hup0
      rw [← hup0] at hupa
      rw [if_neg h0] at hupa
      rw [← hupa] at hr1id
      rw [hr1id] at h0
      simp at h0
  · intro mm hmm
    refine ⟨if decide (mm.roomId = rid) && !decide (mm.userId = uid) then
        { mm with isSynced := false } else mm,
      List.mem_map_of_mem _ hmm, ?_⟩
    by_cases h1 : mm.roomId = rid
    · by_cases h2 : mm.userId = uid
      · rw [if_neg (by simp [h2])]
        refine ⟨rfl, rfl, rfl, rfl, rfl, rfl, rfl, ?_⟩
        rw [if_neg (by simp [h2])]
      · rw [if_pos (by simp [h1, h2])]
        refine ⟨rfl, rfl, rfl, rfl, rfl, rfl, rfl, ?_⟩
        rw [if_pos ⟨h1, h2⟩]
    · rw [if_neg (by simp [h1])]
      refine ⟨rfl, rfl, rfl, rfl, rfl, rfl, rfl, ?_⟩
      rw [if_neg (by simp [h1])]

/-- Witness for C9 amended: a host pause on the concrete database with the
position omitted. -/
theorem C9_amended_frame_witness :
    (change_playback_state dbPair "r" "h" false none 5).1 = .ret true ∧
    (∀ r0 ∈ dbPair.rooms, r0.roomId ≠ "r" →
      r0 ∈ (change_playback_state dbPair "r" "h" false none 5).2.rooms) ∧
    (∀ r1 ∈ (change_playback_state dbPair "r" "h" false none 5).2.rooms,
      r1.roomId = "r" →
      r1.playbackSpeed = roomR.playbackSpeed ∧ r1.isPublic = roomR.isPublic ∧
      r1.accessKey = roomR.accessKey ∧ r1.hostUserId = roomR.hostUserId ∧
      r1.hostUsername = roomR.hostUsername ∧ r1.isPlaying = false ∧
      r1.updatedAt = 5 ∧ r1.lastActivity = 5 ∧
      (none = (none : Option ℚ) →
        r1.currentPlaybackTime = roomR.currentPlaybackTime)) ∧
    (∀ mm ∈ dbPair.members,
      ∃ mm1 ∈ (change_playback_state dbPair "r" "h" false none 5).2.members,
        mm1.roomId = mm.roomId ∧ mm1.userId = mm.userId ∧
        mm1.username = mm.username ∧ mm1.isHost = mm.isHost ∧
        mm1.currentPlaybackTime = mm.currentPlaybackTime ∧
        mm1.lastHeartbeat = mm.lastHeartbeat ∧ mm1.joinedAt = mm.joinedAt ∧
        mm1.isSynced = (if mm.roomId = "r" ∧ mm.userId ≠ "h" then false
          else mm.isSynced)) :=
  C9_amended_frame dbPair "r" "h" false none 5 hostH roomR (by decide) (by decide)
    (by decide) (by decide) (by unfold RoomIdsNodup; decide)

/-- Claim C10: a successful join inserts the member with the host flag
cleared, the synced flag set and the room position as reported position,
and writes one join sync sample whose host and member times both equal the
room position, with recorded difference 0, marked synced. -/
theorem C10_join_effect (db : DB) (rid uid uname : String)
    (accessKey : Option String) (now : ℚ) (r : Room)
    (hacc : check_room_access db rid accessKey = true)
    (hmem : findMember db rid uid = none)
    (hroom : findRoom db rid = some r) :
    (∃ m ∈ (joinRoom db rid uid uname accessKey now).members,
      m.roomId = rid ∧ m.userId = uid ∧ m.isHost = false ∧ m.isSynced = true ∧
        m.currentPlaybackTime = r.currentPlaybackTime) ∧
    (∃ s ∈ (joinRoom db rid uid uname accessKey now).syncStates,
      s.roomId = rid ∧ s.userId = uid ∧ s.hostTime = r.currentPlaybackTime ∧
        s.memberTime = r.currentPlaybackTime ∧ s.timeDifference = 0 ∧
        s.isSynced = true ∧ s.syncEventType = "join" ∧
        (computeSync s.hostTime s.memberTime).diff = 0 ∧
        (computeSync s.hostTime s.memberTime).synced = true) := by
  unfold joinRoom
  rw [hacc, hmem, hroom]
  simp only [Bool.not_true, Bool.false_eq_true, if_false]
  constructor
  · exact ⟨_, List.mem_append_right _ (List.mem_singleton_self _),
      rfl, rfl, rfl, rfl, rfl⟩
  · refine ⟨_, List.mem_append_right _ (List.mem_singleton_self _),
      rfl, rfl, rfl, rfl, rfl, rfl, rfl, ?_, ?_⟩
    · simp [computeSync]
    · simp [computeSync, syncTolerance]

/-- Witness for C10: user u joins the concrete two-member database. -/
theorem C10_join_effect_witness :
    (∃ m ∈ (joinRoom dbPair "r" "u" "U" none 3).members,
      m.roomId = "r" ∧ m.userId = "u" ∧ m.isHost = false ∧ m.isSynced = true ∧
        m.currentPlaybackTime = roomR.currentPlaybackTime) ∧
    (∃ s ∈ (joinRoom dbPair "r" "u" "U" none 3).syncStates,
      s.roomId = "r" ∧ s.userId = "u" ∧ s.hostTime = roomR.currentPlaybackTime ∧
        s.memberTime = roomR.currentPlaybackTime ∧ s.timeDifference = 0 ∧
        s.isSynced = true ∧ s.syncEventType = "join" ∧
        (computeSync s.hostTime s.memberTime).diff = 0 ∧
        (computeSync s.hostTime s.memberTime).synced = true) :=
  C10_join_effect dbPair "r" "u" "U" none 3 roomR (by decide) (by decide) (by decide)

/-- Claim C8: a member row survives the eviction sweep exactly when the age
of its last heartbeat does not exceed 30 seconds — at 31 seconds it is
removed, at 29 seconds it is retained. -/
theorem C8_eviction_boundary (db : DB) (now : ℚ) (m : Member)
    (hnd : KeysNodup db) (hm : m ∈ db.members) :
    (∃ m1 ∈ (cleanup_realtime_data db now).members,
        m1.roomId = m.roomId ∧ m1.userId = m.userId) ↔
      ¬ (30 < now - m.lastHeartbeat) := by
  rw [cleanup_members_eq]
  obtain ⟨g, hg, hmem⟩ := foldl_delete_members (staleMembers db now) db now
  rw [show cleanupInactiveMembers db now =
    (staleMembers db now).foldl (fun d x => deleteMemberRow d x.roomId x.userId now) db
    from rfl]
  rw [hmem]
  have harith : (m.lastHeartbeat < now - 30) ↔ (30 < now - m.lastHeartbeat) := by
    constructor <;> intro h <;> linarith
  constructor
  · rintro ⟨m1, hm1, hr, hu⟩
    obtain ⟨m0, hm0, hgm0⟩ := List.mem_map.mp hm1
    have hm0mem := (List.mem_filter.mp hm0).1
    have hm0pred := (List.mem_filter.mp hm0).2
    have hk : memberKey m0 = memberKey m := by
      have h1 : memberKey (g m0) = memberKey m0 := hg m0
      have h2 : memberKey m1 = memberKey m := by
        unfold memberKey
        rw [hr, hu]
      rw [← hgm0, h1] at h2
      exact h2
    have hm0m : m0 = m := List.inj_on_of_nodup_map hnd hm0mem hm hk
    rw [hm0m] at hm0pred
    intro hage
    have hstale : m ∈ staleMembers db now :=
      List.mem_filter.mpr ⟨hm, decide_eq_true (harith.mpr hage)⟩
    have hany : ((staleMembers db now).any (fun x =>
        decide (m.roomId = x.roomId) && decide (m.userId = x.userId))) = true :=
      List.any_eq_true.mpr ⟨m, hstale, by simp⟩
    rw [hany] at hm0pred
    cases hm0pred
  · intro hage
    have hpred : (!(staleMembers db now).any (fun x =>
        decide (m.roomId = x.roomId) && decide (m.userId = x.userId))) = true := by
      rcases Bool.eq_false_or_eq_true ((staleMembers db now).any (fun x =>
        decide (m.roomId = x.roomId) && decide (m.userId = x.userId))) with h | h
      · exfalso
        obtain ⟨y, hy, hky⟩ := List.any_eq_true.mp h
        simp only [Bool.and_eq_true, decide_eq_true_eq] at hky
        have hymem := (staleMembers_sub db now y hy).1
        have hk : memberKey y = memberKey m := by
          unfold memberKey
          rw [hky.1, hky.2]
        have hym : y = m := List.inj_on_of_nodup_map hnd hymem hm hk
        rw [hym] at hy
        exact hage (harith.mp ((staleMembers_sub db now m hy).2))
      · simp [h]
    refine ⟨g m, List.mem_map_of_mem g (List.mem_filter.mpr ⟨hm, hpred⟩), ?_⟩
    exact memberKey_eq_iff (hg m)

/-- Witness for C8 on the concrete database at time 100: the host (31
seconds silent) is evicted and the other member (29 seconds silent) is
retained. -/
theorem C8_eviction_boundary_witness :
    (∃ m1 ∈ (cleanup_realtime_data dbPair 100).members,
        m1.roomId = memberM.roomId ∧ m1.userId = memberM.userId) ∧
    ¬ (∃ m1 ∈ (cleanup_realtime_data dbPair 100).members,
        m1.roomId = hostH.roomId ∧ m1.userId = hostH.userId) :=
  ⟨(C8_eviction_boundary dbPair 100 memberM (by unfold KeysNodup; decide) (by decide)).mpr
     (by norm_num [memberM]),
   fun hp => absurd
     ((C8_eviction_boundary dbPair 100 hostH (by unfold KeysNodup; decide) (by decide)).mp hp)
     (by norm_num [hostH])⟩

/-- Claim C1 is false on the code: after create, leave and a join into the
surviving empty-roster room, the room has one member and no host — the
join handler always inserts the host flag cleared. -/
theorem C1_counterexample :
    (applyOps dbInit c1ops).members.map (fun m => (m.roomId, m.userId, m.isHost)) =
      [("r", "b", false)] ∧
    roomMembers (applyOps dbInit c1ops) "r" ≠ [] ∧
    hostCount (applyOps dbInit c1ops) "r" = 0 := by decide

/-- Claim C4 is false on the code: with two remaining members tied on the
join timestamp, the member with the larger identifier but earlier physical
position is promoted — the transfer orders by joined_at only, with no
identifier tie-break. -/
theorem C4_counterexample :
    tieB.joinedAt = tieC.joinedAt ∧ tieB.userId < tieC.userId ∧
    (leaveRoom dbTie "r" "h" 10).rooms.map Room.hostUserId = ["c"] ∧
    (leaveRoom dbTie "r" "h" 10).members.map (fun m => (m.userId, m.isHost)) =
      [("c", true), ("b", false)] := by
  refine ⟨by decide, ?_, by decide, by decide⟩
  rw [String.lt_iff_toList_lt]
  decide

/-- Claim C4 amended: when the host leaves and other members remain, the
promoted member carries a minimal join timestamp among the remaining
members, and when one member joined strictly earlier than every other
remaining member, exactly that member is promoted; the tie-break among
equal join timestamps is the physical row order, not the member
identifier. -/
theorem C4_amended_earliest_promoted (db : DB) (rid uid : String) (now : ℚ)
    (mOld : Member)
    (hm : findMember db rid uid = some mOld) (hhost : mOld.isHost = true)
    (hne : survivors db rid uid ≠ []) :
    ∃ nh, selectOldest (survivors db rid uid) = some nh ∧
      nh ∈ survivors db rid uid ∧
      (∀ x ∈ survivors db rid uid, nh.joinedAt ≤ x.joinedAt) ∧
      (∀ b ∈ survivors db rid uid,
        (∀ x ∈ survivors db rid uid, x = b ∨ b.joinedAt < x.joinedAt) → nh = b) ∧
      (∀ r1 ∈ (leaveRoom db rid uid now).rooms, r1.roomId = rid →
        r1.hostUserId = nh.userId) ∧
      (∃ m1 ∈ (leaveRoom db rid uid now).members,
        m1.roomId = rid ∧ m1.userId = nh.userId ∧ m1.isHost = true) := by
  obtain ⟨nh, hsel, hmem, hmin, huniq⟩ := selectOldest_spec (survivors db rid uid) hne
  obtain ⟨hlm, hlr⟩ := leaveRoom_promotes db rid uid now mOld nh hm hhost hsel hmem
  have hnh2 := List.mem_filter.mp hmem
  have hnh3 := List.mem_filter.mp hnh2.1
  have hnhroom : nh.roomId = rid := by
    have := hnh3.2
    simpa using this
  have hnhuid : (decide (nh.userId = uid)) = false := by
    rcases Bool.eq_false_or_eq_true (decide (nh.userId = uid)) with h | h
    · have := hnh2.2
      rw [h] at this
      cases this
    · exact h
  refine ⟨nh, hsel, hmem, hmin, huniq, ?_, ?_⟩
  · intro r1 hr1 hr1id
    rw [hlr] at hr1
    obtain ⟨r0, hr0, hup⟩ := List.mem_map.mp hr1
    by_cases h0 : decide (r0.roomId = rid) = true
    · rw [if_pos h0] at hup
      rw [← hup]
    · rw [if_neg (by simp at h0 ⊢; exact h0)] at hup
      exfalso
      rw [← hup] at hr1id
      simp only [decide_eq_true_eq] at h0
      exact h0 hr1id
  · refine ⟨promoteKey rid nh.userId nh, ?_, ?_, ?_, ?_⟩
    · rw [hlm]
      apply List.mem_map_of_mem
      apply List.mem_filter.mpr
      refine ⟨hnh3.1, ?_⟩
      rw [hnhuid]
      simp
    · rw [promoteKey_roomId]
      exact hnhroom
    · rw [promoteKey_userId]
    · rw [promoteKey_isHost]
      simp [hnhroom]

/-- Witness for C4 amended on the tie database: the host leaves, both
remaining members tie on the join timestamp, and a remaining member with
the minimal timestamp is promoted. -/
theorem C4_amended_earliest_promoted_witness :
    ∃ nh, selectOldest (survivors dbTie "r" "h") = some nh ∧
      nh ∈ survivors dbTie "r" "h" ∧
      (∀ x ∈ survivors dbTie "r" "h", nh.joinedAt ≤ x.joinedAt) ∧
      (∀ b ∈ survivors dbTie "r" "h",
        (∀ x ∈ survivors dbTie "r" "h", x = b ∨ b.joinedAt < x.joinedAt) → nh = b) ∧
      (∀ r1 ∈ (leaveRoom dbTie "r" "h" 10).rooms, r1.roomId = "r" →
        r1.hostUserId = nh.userId) ∧
      (∃ m1 ∈ (leaveRoom dbTie "r" "h" 10).members,
        m1.roomId = "r" ∧ m1.userId = nh.userId ∧ m1.isHost = true) :=
  C4_amended_earliest_promoted dbTie "r" "h" 10 hostH (by decide) (by decide) (by decide)

/-- Claim C1 (amended): after every sequence of create, join, leave and
eviction operations from the empty state, no room ever has two members
carrying the host flag; and along any trace in which no join inserts into a
room whose roster is empty, every room with a non-empty roster has exactly
one host.  The unqualified claim is refuted by C1_counterexample: joinRoom
always inserts with is_host false, so a join into a room emptied by its
host leaving yields a non-empty roster with zero hosts. -/
theorem C1_amended_host_invariant (ops : List Op) :
    AtMostOneHostInv (applyOps dbInit ops) ∧
    (goodTrace dbInit ops = true → OneHostInv (applyOps dbInit ops)) := by
  have h := applyOps_inv ops dbInit wf_dbInit
  exact ⟨h.1.2.2, fun hg => h.2 onehost_dbInit hg⟩

/-- Witness for amended C1: the concrete trace create, join, leave, evict
is good (no join lands in an empty roster) and the resulting state has
exactly one host in every non-empty room. -/
theorem C1_amended_host_invariant_witness :
    goodTrace dbInit c1goodOps = true ∧
    OneHostInv (applyOps dbInit c1goodOps) :=
  ⟨by decide, (C1_amended_host_invariant c1goodOps).2 (by decide)⟩

end Watchium
